import Mathlib

/-!
Verification of the easy-fix wrapping/interception engine (src/index.js).

The development shallowly embeds the single source unit:
* `JSVal` models the JavaScript values the engine inspects (call arguments,
  callback arguments, return values, promise settlement values).
* `jsonStringify` models `JSON.stringify` as used through the default
  serializers (`stringifySafe` with no replacer and no spaces) on acyclic
  values, where the cycle machinery provably never fires.
* `jparse` models `JSON.parse` on the strings the engine re-reads.
* `sha256hex` is a full executable SHA-256 (bytes to lowercase hex), matching
  `crypto.createHash('sha256')`.
* `stringifySafe` over an explicit heap of possibly-cyclic nodes models the
  circular-reference-safe serializer of lines 33-64.
* `runWrapped` models one invocation of the `wrapper` closure (lines 83-180)
  for a given mode, original-method behavior, argument list and filesystem,
  producing the events of the synchronous phase, the events of later
  scheduling turns (`process.nextTick` / promise jobs), the call's own
  result, and the filesystem afterwards.
-/

namespace EasyFix

/-- JavaScript values as far as the engine observes them.  `fn` stands for an
arbitrary function value (only its callability matters to the engine);
`errObj` stands for an `Error` instance carrying a message (its own enumerable
properties are empty, which is what `JSON.stringify` sees). -/
inductive JSVal where
  | undef
  | jsNull
  | jsBool (b : Bool)
  | num (n : Int)
  | str (s : String)
  | arr (elems : List JSVal)
  | obj (fields : List (String × JSVal))
  | fn
  | errObj (msg : String)

/-- JavaScript truthiness for the values of `JSVal`. -/
def JSVal.truthy : JSVal → Bool
  | .undef => false
  | .jsNull => false
  | .jsBool b => b
  | .num n => n != 0
  | .str s => !s.data.isEmpty
  | .arr _ => true
  | .obj _ => true
  | .fn => true
  | .errObj _ => true

/-- The JavaScript `&&` operator: returns the left operand when it is falsy,
otherwise the right operand. -/
def jsAnd (a b : JSVal) : JSVal := if a.truthy then b else a

/-- Property lookup `v.k`; absent properties and properties of primitives read
as `undefined`.  An `Error` instance exposes no `then` property. -/
def JSVal.getProp : JSVal → String → JSVal
  | .obj fields, k => match fields.lookup k with
    | some v => v
    | none => .undef
  | _, _ => JSVal.undef

/-- Opening brace character, kept out of string literals. -/
def obraceC : Char := Char.ofNat 123

/-- Closing brace character, kept out of string literals. -/
def cbraceC : Char := Char.ofNat 125

/-- Opening brace as a one-character string. -/
def obrace : String := String.mk [obraceC]

/-- Closing brace as a one-character string. -/
def cbrace : String := String.mk [cbraceC]

/-- JSON string escaping of one character, as `JSON.stringify` performs it for
the characters that occur in this development. -/
def escChar (c : Char) : List Char :=
  if c = '"' then ['\\', '"']
  else if c = '\\' then ['\\', '\\']
  else if c = '\n' then ['\\', 'n']
  else if c = '\t' then ['\\', 't']
  else if c = '\r' then ['\\', 'r']
  else [c]

/-- Render a string as a quoted JSON string literal. -/
def renderStr (s : String) : String :=
  "\"" ++ String.mk (s.data.map escChar).flatten ++ "\""

mutual

/-- Model of `JSON.stringify` (no replacer, no spaces) on acyclic values.  This is
exactly what `stringifySafe` of src/index.js computes on values without
shared or circular references: the ancestor stack of its replacer only ever
holds the composite nodes above the current position, so the cycle branch
never fires on tree-shaped values.  The result is `none` exactly when
`JSON.stringify` returns `undefined` (top-level `undefined` or function). -/
def jsonStringify : JSVal → Option String
  | .undef => none
  | .fn => none
  | .jsNull => some "null"
  | .jsBool b => some (if b then "true" else "false")
  | .num n => some (toString n)
  | .str s => some (renderStr s)
  | .errObj _ => some (obrace ++ cbrace)
  | .arr xs => some ("[" ++ String.intercalate "," (jsonStringifyElems xs) ++ "]")
  | .obj fields => some (obrace ++ String.intercalate "," (jsonStringifyFields fields) ++ cbrace)

/-- Array elements: `undefined` and functions render as `null`. -/
def jsonStringifyElems : List JSVal → List String
  | [] => []
  | x :: xs =>
    (match jsonStringify x with
      | some s => s
      | none => "null") :: jsonStringifyElems xs

/-- Object fields: keys whose value serializes to `undefined` are dropped. -/
def jsonStringifyFields : List (String × JSVal) → List String
  | [] => []
  | (k, v) :: fields =>
    match jsonStringify v with
    | some s => (renderStr k ++ ":" ++ s) :: jsonStringifyFields fields
    | none => jsonStringifyFields fields

end

/-- Serialization of an argument array, as the default
`argumentSerializer` / `responseSerializer` compute it: always a string. -/
def stringifyJsArr (xs : List JSVal) : String :=
  "[" ++ String.intercalate "," (jsonStringifyElems xs) ++ "]"

/-- The result of assigning a serializer's output to a record field: a string,
or `undefined` when `JSON.stringify` yielded no string. -/
def serOut (v : JSVal) : JSVal :=
  match jsonStringify v with
  | some s => .str s
  | none => JSVal.undef

/-- Whitespace as JSON's grammar allows between tokens. -/
def isWsChar (c : Char) : Bool :=
  c == ' ' || c == '\n' || c == '\t' || c == '\r'

/-- Skip leading JSON whitespace. -/
def skipWs : List Char → List Char
  | [] => []
  | c :: cs => if isWsChar c then skipWs cs else c :: cs

/-- Expect a literal run of characters. -/
def expectChars : List Char → List Char → Option (List Char)
  | [], rest => some rest
  | e :: es, c :: cs => if c = e then expectChars es cs else none
  | _ :: _, [] => none

/-- Parse the body of a JSON string literal (the opening quote consumed),
understanding the escapes `renderStr` emits. -/
def parseStrBody : Nat → List Char → Option (String × List Char)
  | 0, _ => none
  | _ + 1, [] => none
  | fuel + 1, c :: cs =>
    if c = '"' then some ("", cs)
    else if c = '\\' then
      match cs with
      | [] => none
      | e :: cs2 =>
        let dc : Option Char :=
          if e = 'n' then some '\n'
          else if e = 't' then some '\t'
          else if e = 'r' then some '\r'
          else if e = '"' then some '"'
          else if e = '\\' then some '\\'
          else none
        match dc with
        | none => none
        | some d =>
          match parseStrBody fuel cs2 with
          | some (s, rest) => some (String.mk (d :: s.data), rest)
          | none => none
    else
      match parseStrBody fuel cs with
      | some (s, rest) => some (String.mk (c :: s.data), rest)
      | none => none

/-- Split a leading run of decimal digits. -/
def spanDigits : List Char → List Char × List Char
  | [] => ([], [])
  | c :: cs =>
    if c.isDigit then
      let (ds, rest) := spanDigits cs
      (c :: ds, rest)
    else ([], c :: cs)

/-- Numeric value of a digit run. -/
def digitsToNat (ds : List Char) : Nat :=
  ds.foldl (fun acc c => acc * 10 + (c.toNat - 48)) 0

mutual

/-- Recursive-descent model of `JSON.parse` on one value.  The fuel argument
only bounds recursion depth; `jparse` supplies more than any input can use. -/
def parseVal : Nat → List Char → Option (JSVal × List Char)
  | 0, _ => none
  | fuel + 1, input =>
    match skipWs input with
    | [] => none
    | c :: cs =>
      if c = 'n' then
        match expectChars ['u', 'l', 'l'] cs with
        | some rest => some (.jsNull, rest)
        | none => none
      else if c = 't' then
        match expectChars ['r', 'u', 'e'] cs with
        | some rest => some (.jsBool true, rest)
        | none => none
      else if c = 'f' then
        match expectChars ['a', 'l', 's', 'e'] cs with
        | some rest => some (.jsBool false, rest)
        | none => none
      else if c = '"' then
        match parseStrBody (cs.length + 1) cs with
        | some (s, rest) => some (.str s, rest)
        | none => none
      else if c = '-' then
        match spanDigits cs with
        | ([], _) => none
        | (ds, rest) => some (.num (-(digitsToNat ds : Int)), rest)
      else if c.isDigit then
        match spanDigits (c :: cs) with
        | (ds, rest) => some (.num (digitsToNat ds : Int), rest)
      else if c = '[' then
        match skipWs cs with
        | ']' :: rest => some (.arr [], rest)
        | cs2 => match parseElems fuel cs2 with
          | some (xs, rest) => some (.arr xs, rest)
          | none => none
      else if c = obraceC then
        match skipWs cs with
        | d :: rest =>
          if d = cbraceC then some (.obj [], rest)
          else match parseFields fuel (d :: rest) with
            | some (fields, rest2) => some (.obj fields, rest2)
            | none => none
        | [] => none
      else none

/-- Parse one or more comma-separated array elements and the closing `]`. -/
def parseElems : Nat → List Char → Option (List JSVal × List Char)
  | 0, _ => none
  | fuel + 1, input =>
    match parseVal fuel input with
    | none => none
    | some (v, rest) =>
      match skipWs rest with
      | ',' :: rest2 =>
        match parseElems fuel rest2 with
        | some (xs, rest3) => some (v :: xs, rest3)
        | none => none
      | ']' :: rest2 => some ([v], rest2)
      | _ => none

/-- Parse one or more comma-separated object members and the closing brace. -/
def parseFields : Nat → List Char → Option (List (String × JSVal) × List Char)
  | 0, _ => none
  | fuel + 1, input =>
    match skipWs input with
    | '"' :: cs =>
      match parseStrBody (cs.length + 1) cs with
      | none => none
      | some (k, rest) =>
        match skipWs rest with
        | ':' :: rest2 =>
          match parseVal fuel rest2 with
          | none => none
          | some (v, rest3) =>
            match skipWs rest3 with
            | ',' :: rest4 =>
              match parseFields fuel rest4 with
              | some (fields, rest5) => some ((k, v) :: fields, rest5)
              | none => none
            | d :: rest4 =>
              if d = cbraceC then some ([(k, v)], rest4) else none
            | [] => none
        | _ => none
    | _ => none

end

/-- Model of `JSON.parse` on a string: parse one value and require only
whitespace to remain.  Failure corresponds to a thrown `SyntaxError`. -/
def jparse (s : String) : Except Unit JSVal :=
  match parseVal (s.length * 2 + 8) s.data with
  | some (v, rest) => if skipWs rest = [] then .ok v else .error ()
  | none => .error ()

/-- Model of `JSON.parse` applied to an arbitrary JavaScript value: the argument is
first coerced to a string.  The coercion is spelled out for primitives; the
string forms of the remaining values (functions, plain objects, arrays,
errors) are never valid JSON for the values easy-fix stores in fixture
files, so they are mapped to a parse error. -/
def jsJsonParse : JSVal → Except Unit JSVal
  | .str s => jparse s
  | .jsBool b => jparse (if b then "true" else "false")
  | .num n => jparse (toString n)
  | .jsNull => jparse "null"
  | _ => .error ()

/-- Modulus of 32-bit words. -/
def M32 : Nat := 4294967296

/-- Addition modulo `2^32`. -/
def add32 (a b : Nat) : Nat := (a + b) % M32

/-- Right rotation of a 32-bit word. -/
def rotr32 (x n : Nat) : Nat := ((x >>> n) ||| (x <<< (32 - n))) % M32

/-- Three-way xor. -/
def xor3 (a b c : Nat) : Nat := Nat.xor (Nat.xor a b) c

/-- Bitwise complement within 32 bits. -/
def not32 (x : Nat) : Nat := Nat.xor x 4294967295

/-- The SHA-256 round constants. -/
def sha256K : List Nat :=
  [1116352408, 1899447441, 3049323471, 3921009573,
   961987163, 1508970993, 2453635748, 2870763221,
   3624381080, 310598401, 607225278, 1426881987,
   1925078388, 2162078206, 2614888103, 3248222580,
   3835390401, 4022224774, 264347078, 604807628,
   770255983, 1249150122, 1555081692, 1996064986,
   2554220882, 2821834349, 2952996808, 3210313671,
   3336571891, 3584528711, 113926993, 338241895,
   666307205, 773529912, 1294757372, 1396182291,
   1695183700, 1986661051, 2177026350, 2456956037,
   2730485921, 2820302411, 3259730800, 3345764771,
   3516065817, 3600352804, 4094571909, 275423344,
   430227734, 506948616, 659060556, 883997877,
   958139571, 1322822218, 1537002063, 1747873779,
   1955562222, 2024104815, 2227730452, 2361852424,
   2428436474, 2756734187, 3204031479, 3329325298]

/-- Running hash state of SHA-256. -/
structure Sha8 where
  a : Nat
  b : Nat
  c : Nat
  d : Nat
  e : Nat
  f : Nat
  g : Nat
  hh : Nat

/-- The SHA-256 initial hash value. -/
def sha256H0 : Sha8 :=
  ⟨1779033703, 3144134277, 1013904242, 2773480762,
   1359893119, 2600822924, 528734635, 1541459225⟩

/-- Big-endian 8-byte encoding of a number. -/
def be64 (n : Nat) : List Nat :=
  [(n >>> 56) % 256, (n >>> 48) % 256, (n >>> 40) % 256, (n >>> 32) % 256,
   (n >>> 24) % 256, (n >>> 16) % 256, (n >>> 8) % 256, n % 256]

/-- SHA-256 message padding: append `0x80`, zero bytes up to 56 mod 64, then
the bit length as 8 big-endian bytes. -/
def sha256pad (msg : List Nat) : List Nat :=
  let len := msg.length
  let zeros := (120 - ((len + 1) % 64)) % 64
  msg ++ [128] ++ List.replicate zeros 0 ++ be64 (len * 8)

/-- Group bytes into big-endian 32-bit words. -/
def bytesToWords : List Nat → List Nat
  | a :: b :: c :: d :: rest => (((a * 256 + b) * 256 + c) * 256 + d) :: bytesToWords rest
  | _ => []

/-- Extend 16 message-schedule words to 64. -/
def extendSchedule (w0 : Array Nat) : Array Nat :=
  (List.range 48).foldl
    (fun w j =>
      let i := j + 16
      let x15 := w.getD (i - 15) 0
      let x2 := w.getD (i - 2) 0
      let s0 := xor3 (rotr32 x15 7) (rotr32 x15 18) (x15 >>> 3)
      let s1 := xor3 (rotr32 x2 17) (rotr32 x2 19) (x2 >>> 10)
      w.push ((w.getD (i - 16) 0 + s0 + w.getD (i - 7) 0 + s1) % M32))
    w0

/-- One SHA-256 compression round. -/
def sha256Round (s : Sha8) (kw : Nat × Nat) : Sha8 :=
  let s1 := xor3 (rotr32 s.e 6) (rotr32 s.e 11) (rotr32 s.e 25)
  let ch := Nat.xor (Nat.land s.e s.f) (Nat.land (not32 s.e) s.g)
  let temp1 := (s.hh + s1 + ch + kw.1 + kw.2) % M32
  let s0 := xor3 (rotr32 s.a 2) (rotr32 s.a 13) (rotr32 s.a 22)
  let maj := xor3 (Nat.land s.a s.b) (Nat.land s.a s.c) (Nat.land s.b s.c)
  let temp2 := (s0 + maj) % M32
  ⟨(temp1 + temp2) % M32, s.a, s.b, s.c, (s.d + temp1) % M32, s.e, s.f, s.g⟩

/-- Compress one 16-word chunk into the hash state. -/
def compressChunk (h : Sha8) (chunk : List Nat) : Sha8 :=
  let w := extendSchedule chunk.toArray
  let r := (sha256K.zip w.toList).foldl sha256Round h
  ⟨add32 h.a r.a, add32 h.b r.b, add32 h.c r.c, add32 h.d r.d,
   add32 h.e r.e, add32 h.f r.f, add32 h.g r.g, add32 h.hh r.hh⟩

/-- Fold the compression function over all 16-word chunks.  The fuel bounds
the number of chunks; callers pass more than any word list can use. -/
def sha256ChunksF : Nat → Sha8 → List Nat → Sha8
  | _, h, [] => h
  | 0, h, _ => h
  | fuel + 1, h, w :: rest =>
    sha256ChunksF fuel (compressChunk h ((w :: rest).take 16)) ((w :: rest).drop 16)

/-- Fold the compression function over all 16-word chunks. -/
def sha256Chunks (h : Sha8) (ws : List Nat) : Sha8 :=
  sha256ChunksF (ws.length + 1) h ws

/-- Hex digit for a value below 16. -/
def hexDigit (n : Nat) : Char :=
  if n < 10 then Char.ofNat (48 + n) else Char.ofNat (87 + n)

/-- Lowercase hexadecimal rendering of a 32-bit word. -/
def wordToHex (w : Nat) : List Char :=
  [28, 24, 20, 16, 12, 8, 4, 0].map (fun s => hexDigit ((w >>> s) % 16))

/-- SHA-256 of a byte sequence, as a 64-character lowercase hex string,
matching `crypto.createHash('sha256').update(s).digest('hex')`. -/
def sha256hex (msg : List Nat) : String :=
  let h := sha256Chunks sha256H0 (bytesToWords (sha256pad msg))
  String.mk (([h.a, h.b, h.c, h.d, h.e, h.f, h.g, h.hh].map wordToHex).flatten)

/-- UTF-8 encoding of one character. -/
def utf8Char (c : Char) : List Nat :=
  let n := c.toNat
  if n < 128 then [n]
  else if n < 2048 then [192 + n / 64, 128 + n % 64]
  else if n < 65536 then [224 + n / 4096, 128 + (n / 64) % 64, 128 + n % 64]
  else [240 + n / 262144, 128 + (n / 4096) % 64, 128 + (n / 64) % 64, 128 + n % 64]

/-- UTF-8 encoding of a string, as `hash.update(str)` consumes it. -/
def utf8Bytes (s : String) : List Nat := (s.data.map utf8Char).flatten

/-- The constant `HASH_LENGTH` of src/index.js line 14. -/
def HASH_LENGTH : Nat := 12

/-- The fingerprint: SHA-256 of the serialized arguments, truncated to
`HASH_LENGTH` hex characters (src/index.js lines 93-98). -/
def hashKeyOf (argStr : String) : String :=
  (sha256hex (utf8Bytes argStr)).take HASH_LENGTH

/-- Model of `path.join` for the two-component joins the engine performs. -/
def pathJoin (a b : String) : String :=
  if a.data.isEmpty then b else a ++ "/" ++ b

/-- The fixture path (src/index.js line 99). -/
def fixturePath (dir pfx argStr : String) : String :=
  pathJoin dir (pfx ++ "-" ++ hashKeyOf argStr ++ ".json")

/-- The constant `NICE_ERR_HEADER` (src/index.js line 16). -/
def NICE_ERR_HEADER : String :=
  "This test (in replay mode) could not read the expected mock data from"

/-- The constant `NICE_ERR_SERIALIZATION_DESCRIPTOR` (line 17). -/
def NICE_ERR_SERIALIZATION_DESCRIPTOR : String := "Serialized arguments"

/-- The constant `NICE_ERR_FOOTER` (line 18). -/
def NICE_ERR_FOOTER : String :=
  "If you have not already, try running this test in capture mode to generate new test fixtures.  If you continue to see this error, a likely cause is differing (frequently changing) argument for the wrapped asynchronous task.  This can be mitigated by defining an argumentSerializer option that ignores the frequently-changing argument."

/-- The constant `NICE_ERR_PROMISE` (line 19). -/
def NICE_ERR_PROMISE : String :=
  "easy-fix retained no resolution/rejection arguments for this wrapped promise"

/-- The function `getNiceError` (lines 21-23). -/
def getNiceError (file details : String) : String :=
  NICE_ERR_HEADER ++ " \"" ++ file ++ "\"\n\n" ++
    NICE_ERR_SERIALIZATION_DESCRIPTOR ++ ":\n" ++ details ++ "\n\n" ++ NICE_ERR_FOOTER

/-- The in-memory `wrappedCallData` object (src/index.js lines 100-102 and the
assignments at 114, 122, 129, 138, 145).  `none` means the property was never
assigned; assigned properties hold the assigned JavaScript value (for the two
serializer-valued fields the serializer always yields a string, so they are
typed as strings here). -/
structure WrappedCallData where
  callArgs : String
  callbackArgs : Option String := none
  returnedPromise : Option JSVal := none
  promiseResolutionArgs : Option String := none
  promiseRejectionArgs : Option String := none
  returnValue : Option JSVal := none

/-- Is a value the `undefined` value? -/
def JSVal.isUndef : JSVal → Bool
  | .undef => true
  | _ => false

/-- A record property holding a serializer-produced string, as it appears in
the written JSON object: absent when never assigned. -/
def optStrField (k : String) : Option String → List (String × JSVal)
  | some s => [(k, JSVal.str s)]
  | none => []

/-- A record property holding an arbitrary JavaScript value, as it appears in
the written JSON object: absent when never assigned, and dropped by
`JSON.stringify` when its value is `undefined`. -/
def optValField (k : String) : Option JSVal → List (String × JSVal)
  | some v => if v.isUndef then [] else [(k, v)]
  | none => []

/-- The JSON object `writeWrappedCallData` persists (lines 103-108):
`stringifySafe` drops properties whose value is `undefined`, bools and
strings are written as themselves.  The file is represented at the level of
its parsed JSON object: a key/value list. -/
def fileOfRecord (d : WrappedCallData) : List (String × JSVal) :=
  [("callArgs", JSVal.str d.callArgs)]
  ++ optStrField "callbackArgs" d.callbackArgs
  ++ optValField "returnedPromise" d.returnedPromise
  ++ optStrField "promiseResolutionArgs" d.promiseResolutionArgs
  ++ optStrField "promiseRejectionArgs" d.promiseRejectionArgs
  ++ optValField "returnValue" d.returnValue

/-- Reading a property of the parsed fixture object: absent keys read as
`undefined`. -/
def fileGet (file : List (String × JSVal)) (k : String) : JSVal :=
  match file.lookup k with
  | some v => v
  | none => JSVal.undef

/-- One filesystem entry: no file, a fixture file (held as its parsed JSON
object; the bytes on disk are its pretty-printed rendering), or a path whose
synchronous read fails with a non-`ENOENT` error of the given code. -/
inductive FSEntry where
  | absent
  | fixtureFile (file : List (String × JSVal))
  | ioErr (code : String)

/-- The filesystem, as a total map from paths to entries. -/
def FS : Type := String → FSEntry

/-- Model of `fs.writeFileSync`: replace the entry at a path. -/
def fsWriteF (fs : FS) (p : String) (file : List (String × JSVal)) : FS :=
  fun q => if q = p then .fixtureFile file else fs q

/-- When does the original method fire the trailing callback it was given:
while it runs, or on a later scheduling turn after it returned. -/
inductive CbTiming where
  | duringCall
  | afterReturn

/-- How a promise returned by the original method eventually settles. -/
inductive PromSettle where
  | resolvesWith (v : JSVal)
  | rejectsWith (v : JSVal)
  | neverSettles

/-- What the original method does when applied: return a plain value, return
a promise with the given eventual settlement, or throw synchronously. -/
inductive OrigRet where
  | retVal (v : JSVal)
  | retPromise (s : PromSettle)
  | throwsVal (v : JSVal)

/-- The behavior of the wrapped (original) method for one invocation:
whether/when it invokes its trailing callback argument and with which
arguments, and what it returns.  The method itself is an external
collaborator; this is its interface at the wrapper's boundary. -/
structure OrigBehavior where
  cbArgs : Option (CbTiming × List JSVal) := none
  ret : OrigRet

/-- Observable events of a wrapped call.  `cbCall` is an invocation of the
caller-supplied (original) callback; `promResolve`/`promReject` is the
settlement of the value the wrapped call returned; `tickThrew` is an
exception escaping a deferred task. -/
inductive Ev where
  | origInvoked (args : List JSVal)
  | cbCall (args : List JSVal)
  | fsWrite (path : String) (file : List (String × JSVal))
  | fsRead (path : String)
  | promResolve (v : JSVal)
  | promReject (v : JSVal)
  | tickThrew

/-- Errors the wrapped call itself can raise. -/
inductive JsErr where
  | errorObj (msg : String)
  | jsonParseErr
  | fsRaw (code : String)
  | userThrown (v : JSVal)

/-- The wrapped call's own immediate result: a plain value, a promise handle
(whose settlement appears among the events), or a thrown error. -/
inductive CallRet where
  | val (v : JSVal)
  | promiseHandle
  | thrown (e : JsErr)

/-- Returns `true` exactly on `thrown`. -/
def CallRet.isThrown : CallRet → Bool
  | .thrown _ => true
  | _ => false

/-- The outcome of one wrapped call: the events of the synchronous phase (in
order), the events of later scheduling turns (in order), the call's own
result, and the filesystem afterwards. -/
structure RunResult where
  syncEvents : List Ev
  deferredEvents : List Ev
  ret : CallRet
  fsAfter : FS

/-- All events of a run, synchronous phase first. -/
def RunResult.events (r : RunResult) : List Ev :=
  r.syncEvents ++ r.deferredEvents

/-- The per-wrapper configuration the claims range over: fixture directory,
filename prefix (kept as `pfx`), and resolved mode.  The pluggable
serializers and the callback-substitution strategy are fixed to their
documented defaults (`stringifySafe` and tail-argument replacement), which is
the configuration the source installs absent overrides. -/
structure EFOptions where
  dir : String
  pfx : String
  mode : Option String

/-- Is the final call argument callable (src/index.js line 111)?  The
caller's callback, when present, is the trailing `fn` value. -/
def lastIsFn (args : List JSVal) : Bool :=
  match args.getLast? with
  | some JSVal.fn => true
  | _ => false

/-- Live branch (src/index.js lines 87-90): apply the original method and
forward everything; no fixture machinery runs. -/
def runLive (orig : OrigBehavior) (args : List JSVal) (fs : FS) : RunResult :=
  let syncCb : List Ev :=
    match orig.cbArgs with
    | some (CbTiming.duringCall, cargs) => [Ev.cbCall cargs]
    | _ => []
  let defCb : List Ev :=
    match orig.cbArgs with
    | some (CbTiming.afterReturn, cargs) => [Ev.cbCall cargs]
    | _ => []
  match orig.ret with
  | .retVal v => ⟨Ev.origInvoked args :: syncCb, defCb, .val v, fs⟩
  | .throwsVal v => ⟨Ev.origInvoked args :: syncCb, defCb, .thrown (.userThrown v), fs⟩
  | .retPromise s =>
    let settle : List Ev :=
      match s with
      | .resolvesWith v => [Ev.promResolve v]
      | .rejectsWith v => [Ev.promReject v]
      | .neverSettles => []
    ⟨Ev.origInvoked args :: syncCb, defCb ++ settle, .promiseHandle, fs⟩

/-- The callback proxy's settle when the original method fires the callback
while it runs: record the serialized callback arguments, write the fixture,
then forward to the original callback. -/
def captureCbDuring (filepath : String) (cbS : Option (CbTiming × List JSVal))
    (d : WrappedCallData) (fsx : FS) : WrappedCallData × FS × List Ev :=
  match cbS with
  | some (CbTiming.duringCall, cargs) =>
    let d2 : WrappedCallData := { d with callbackArgs := some (stringifyJsArr cargs) }
    (d2, fsWriteF fsx filepath (fileOfRecord d2),
      [Ev.fsWrite filepath (fileOfRecord d2), Ev.cbCall cargs])
  | _ => (d, fsx, [])

/-- The callback proxy's settle when the original method fires the callback
on a later scheduling turn: same recording and write, deferred. -/
def captureCbAfter (filepath : String) (cbS : Option (CbTiming × List JSVal))
    (d : WrappedCallData) (fsx : FS) : WrappedCallData × FS × List Ev :=
  match cbS with
  | some (CbTiming.afterReturn, cargs) =>
    let d2 : WrappedCallData := { d with callbackArgs := some (stringifyJsArr cargs) }
    (d2, fsWriteF fsx filepath (fileOfRecord d2),
      [Ev.fsWrite filepath (fileOfRecord d2), Ev.cbCall cargs])
  | _ => (d, fsx, [])

/-- Capture branch (src/index.js lines 92-148).  The callback proxy installed
by the default `callbackSwap` records and writes on callback settle, then
forwards to the original callback; a promise-shaped return is chained with
recording handlers that re-resolve/re-reject identically; a non-promise
return value is recorded in memory only (no write occurs on that path).
When the trailing argument is not callable no proxy exists, so callback
settles are modeled only under `lastIsFn` (the wellformedness hypotheses of
the theorems tie `orig.cbArgs` to a callable trailing argument).  A deferred
callback settle and a promise settle are both emitted in that order; the
record object is shared, so the final write carries both outcome groups. -/
def runCapture (opts : EFOptions) (orig : OrigBehavior) (args : List JSVal) (fs : FS) :
    RunResult :=
  let argStr := stringifyJsArr args
  let filepath := fixturePath opts.dir opts.pfx argStr
  let d0 : WrappedCallData := { callArgs := argStr }
  let cbS : Option (CbTiming × List JSVal) := if lastIsFn args then orig.cbArgs else none
  -- callback settle happening while the original method runs
  let sync3 := captureCbDuring filepath cbS d0 fs
  match orig.ret with
  | .throwsVal v =>
    -- `originalFn.apply` threw: nothing after line 121 runs for this call,
    -- but a callback the method already scheduled still fires later
    let after := captureCbAfter filepath cbS sync3.1 sync3.2.1
    ⟨Ev.origInvoked args :: sync3.2.2, after.2.2, .thrown (.userThrown v), after.2.1⟩
  | .retVal v =>
    let rp := jsAnd v (JSVal.jsBool (v.getProp "then").truthy)
    if rp.truthy then
      -- a non-promise value with a truthy `then` property: line 124 would
      -- invoke it and throw; genuine thenables are outside this model.
      -- `returnedPromise` was assigned at line 122 before the throw.
      let d2 : WrappedCallData := { sync3.1 with returnedPromise := some rp }
      let after := captureCbAfter filepath cbS d2 sync3.2.1
      ⟨Ev.origInvoked args :: sync3.2.2, after.2.2,
        .thrown (.errorObj "TypeError: returnValue.then is not a function"), after.2.1⟩
    else
      let d2 : WrappedCallData :=
        { sync3.1 with returnedPromise := some rp, returnValue := some (serOut v) }
      let after := captureCbAfter filepath cbS d2 sync3.2.1
      ⟨Ev.origInvoked args :: sync3.2.2, after.2.2, .val v, after.2.1⟩
  | .retPromise s =>
    let d2 : WrappedCallData := { sync3.1 with returnedPromise := some (JSVal.jsBool true) }
    let after := captureCbAfter filepath cbS d2 sync3.2.1
    match s with
    | .resolvesWith v =>
      let d4 : WrappedCallData :=
        { after.1 with promiseResolutionArgs := some (stringifyJsArr [v]) }
      ⟨Ev.origInvoked args :: sync3.2.2,
        after.2.2 ++ [Ev.fsWrite filepath (fileOfRecord d4), Ev.promResolve v],
        .promiseHandle, fsWriteF after.2.1 filepath (fileOfRecord d4)⟩
    | .rejectsWith v =>
      let d4 : WrappedCallData :=
        { after.1 with promiseRejectionArgs := some (stringifyJsArr [v]) }
      ⟨Ev.origInvoked args :: sync3.2.2,
        after.2.2 ++ [Ev.fsWrite filepath (fileOfRecord d4), Ev.promReject v],
        .promiseHandle, fsWriteF after.2.1 filepath (fileOfRecord d4)⟩
    | .neverSettles =>
      ⟨Ev.origInvoked args :: sync3.2.2, after.2.2, .promiseHandle, after.2.1⟩

/-- The deferred delivery of the recorded callback arguments in replay mode
(src/index.js lines 161-165): scheduled whenever the fixture's
`callbackArgs` is truthy; the tick applies `origCallback` to the parsed
arguments, which throws inside the tick when no callback was supplied or the
stored payload does not parse to an array. -/
def replayCbTick (file : List (String × JSVal)) (args : List JSVal) : List Ev :=
  if (fileGet file "callbackArgs").truthy then
    if lastIsFn args then
      match jsJsonParse (fileGet file "callbackArgs") with
      | .ok (JSVal.arr xs) => [Ev.cbCall xs]
      | .ok _ => [Ev.tickThrew]
      | .error _ => [Ev.tickThrew]
    else [Ev.tickThrew]  -- `origCallback` is undefined: the tick throws
  else []

/-- The deferred settlement of the promise the replay branch synthesizes
(src/index.js lines 167-177): resolve with parsed resolution arguments if
present, else reject with parsed rejection arguments if present, else reject
with `new Error(NICE_ERR_PROMISE)`. -/
def replaySettle (file : List (String × JSVal)) : List Ev :=
  if (fileGet file "promiseResolutionArgs").truthy then
    match jsJsonParse (fileGet file "promiseResolutionArgs") with
    | .ok (JSVal.arr xs) => [Ev.promResolve (xs.headD JSVal.undef)]
    | .ok _ => [Ev.tickThrew]
    | .error _ => [Ev.tickThrew]
  else if (fileGet file "promiseRejectionArgs").truthy then
    match jsJsonParse (fileGet file "promiseRejectionArgs") with
    | .ok (JSVal.arr xs) => [Ev.promReject (xs.headD JSVal.undef)]
    | .ok _ => [Ev.tickThrew]
    | .error _ => [Ev.tickThrew]
  else [Ev.promReject (JSVal.errObj NICE_ERR_PROMISE)]

/-- Replay branch (src/index.js lines 150-179): read the fixture eagerly and
synchronously; a missing file raises the descriptive error, any other read
failure propagates unchanged; callback delivery and promise settlement are
scheduled with `process.nextTick`; otherwise `JSON.parse(returnValue)` is
returned synchronously (throwing a `SyntaxError` when the field is absent or
not valid JSON). -/
def runReplay (opts : EFOptions) (args : List JSVal) (fs : FS) : RunResult :=
  let argStr := stringifyJsArr args
  let filepath := fixturePath opts.dir opts.pfx argStr
  match fs filepath with
  | .absent =>
    ⟨[Ev.fsRead filepath], [], .thrown (.errorObj (getNiceError filepath argStr)), fs⟩
  | .ioErr code =>
    ⟨[Ev.fsRead filepath], [], .thrown (.fsRaw code), fs⟩
  | .fixtureFile file =>
    if (fileGet file "returnedPromise").truthy then
      ⟨[Ev.fsRead filepath], replayCbTick file args ++ replaySettle file, .promiseHandle, fs⟩
    else
      match jsJsonParse (fileGet file "returnValue") with
      | .ok v => ⟨[Ev.fsRead filepath], replayCbTick file args, .val v, fs⟩
      | .error _ => ⟨[Ev.fsRead filepath], replayCbTick file args, .thrown .jsonParseErr, fs⟩

/-- One invocation of the `wrapper` closure (src/index.js lines 83-180):
live mode forwards directly; capture and replay run the fixture protocol.
Any mode other than the strings `live` and `capture` takes the replay
branch, exactly as the source's `if`/`if`/fall-through does. -/
def runWrapped (opts : EFOptions) (orig : OrigBehavior) (args : List JSVal) (fs : FS) :
    RunResult :=
  if opts.mode = some "live" then runLive orig args fs
  else if opts.mode = some "capture" then runCapture opts orig args fs
  else runReplay opts args fs

/-- The third argument of `wrapAsyncMethod`: either the directory-string
shorthand or an options object whose relevant fields may each be absent
(`none`), present but falsy-empty (`some ""`), or set. -/
inductive OptionsArg where
  | asString (s : String)
  | asObject (dir : Option String) (pfx : Option String) (mode : Option String)

/-- Indexing the `modes` map (src/index.js lines 8-12): a known mode name
maps to itself, anything else reads as `undefined`. -/
def modesLookup (s : String) : Option String :=
  if s = "live" || s = "capture" || s = "replay" then some s else none

/-- JavaScript falsiness of an optional string: absent (`undefined`) or the
empty string. -/
def strFalsy : Option String → Bool
  | none => true
  | some s => s.data.isEmpty

/-- Option resolution of `wrapAsyncMethod` (src/index.js lines 66-81):
`options.dir` is the string shorthand itself, else `optionsArg.dir ||
'test/data'`; `options.prefix` defaults to the method name; `options.mode`
is the explicit mode, else `modes[process.env.TEST_MODE || modes.replay]`. -/
def resolveOptions (a : OptionsArg) (method : String) (envTestMode : Option String) :
    EFOptions :=
  let envMode : Option String :=
    modesLookup (if strFalsy envTestMode then "replay" else envTestMode.getD "")
  match a with
  | .asString s => { dir := s, pfx := method, mode := envMode }
  | .asObject d p m =>
    { dir := if strFalsy d then "test/data" else d.getD ""
      pfx := if strFalsy p then method else p.getD ""
      mode := if strFalsy m then envMode else m }

/-- Primitive leaves of the graph-value model of the safe serializer.
`undefined` and function leaves are handled by the tree-level
`jsonStringify`; cycles can only pass through composite nodes, which is what
this model makes explicit. -/
inductive GPrim where
  | gnull
  | gbool (b : Bool)
  | gint (n : Int)
  | gstr (s : String)

/-- A graph value: a primitive, or a reference to a heap node.  Distinct
references model distinct object identities (`===`), which is what the
serializer's ancestor stack compares. -/
inductive GVal where
  | prim (p : GPrim)
  | ref (r : Nat)

/-- A composite heap node: an array or a plain object. -/
inductive HNode where
  | harr (elems : List GVal)
  | hobj (fields : List (String × GVal))

/-- The heap of composite nodes. -/
abbrev Heap : Type := List HNode

/-- The index of the first occurrence of a reference on the ancestor stack,
as `stack.indexOf(value)` computes it (by identity). -/
def idxOf? (r : Nat) : List Nat → Option Nat
  | [] => none
  | a :: rest => if a = r then some 0 else (idxOf? r rest).map (· + 1)

/-- Pair list elements with their array indices. -/
def enumIdx (xs : List GVal) : List (String × GVal) :=
  (List.range xs.length).zip xs |>.map (fun p => (toString p.1, p.2))

/-- Collect a list of optional results, failing if any is missing. -/
def allSome : List (Option String) → Option (List String)
  | [] => some []
  | none :: _ => none
  | some s :: rest =>
    match allSome rest with
    | some ss => some (s :: ss)
    | none => none

/-- The recursive traversal of `stringifySafeSerializer` (src/index.js lines
33-60) combined with `JSON.stringify`'s own recursion.  `anc` is the replacer's
`stack` restricted to the ancestors of the current value (each entry the heap
reference of one composite ancestor, root first); `pathKeys` is its `keys`
list: `pathKeys[i]` is the key under which `anc[i+1]` (or, for the last entry,
the current value) sits inside `anc[i]`.  A reference already on the stack is
replaced by the cycle marker: the bare `[Circular ~]` when the match is the
root (`stack[0] === value`), else `[Circular ~.` followed by the dot-joined
first `j` keys, the path from the root to the matched ancestor.  `none` is
returned only on fuel exhaustion, which the totality theorem rules out. -/
def serGVal : Nat → Heap → List Nat → List String → GVal → Option String
  | 0, _, _, _, _ => none
  | _ + 1, _, _, _, .prim .gnull => some "null"
  | _ + 1, _, _, _, .prim (.gbool b) => some (if b then "true" else "false")
  | _ + 1, _, _, _, .prim (.gint n) => some (toString n)
  | _ + 1, _, _, _, .prim (.gstr s) => some (renderStr s)
  | f + 1, heap, anc, pathKeys, .ref r =>
    match idxOf? r anc with
    | some j =>
      if j = 0 then some (renderStr "[Circular ~]")
      else some (renderStr ("[Circular ~." ++ String.intercalate "." (pathKeys.take j) ++ "]"))
    | none =>
      match heap.get? r with
      | none => some "null"  -- dangling reference; excluded by heap closedness
      | some (.harr xs) =>
        match allSome ((enumIdx xs).map
            (fun p => serGVal f heap (anc ++ [r]) (pathKeys ++ [p.1]) p.2)) with
        | some parts => some ("[" ++ String.intercalate "," parts ++ "]")
        | none => none
      | some (.hobj fields) =>
        match allSome (fields.map
            (fun p => serGVal f heap (anc ++ [r]) (pathKeys ++ [p.1]) p.2)) with
        | some parts =>
          some (obrace ++ String.intercalate ","
            (List.zipWith (fun (p : String × GVal) s => renderStr p.1 ++ ":" ++ s) fields parts)
            ++ cbrace)
        | none => none

/-- The function `stringifySafe` (src/index.js lines 62-64) on the graph model, with the
default replacer and cycle-replacer and no spacing: serialize from an empty
ancestor stack, with fuel that the totality theorem proves sufficient for
every closed heap. -/
def stringifySafe (heap : Heap) (v : GVal) : Option String :=
  serGVal (heap.length + 1) heap [] [] v

/-- Every reference of a value points into the heap. -/
def gvalClosed (n : Nat) : GVal → Bool
  | .prim _ => true
  | .ref r => r < n

/-- Every reference of a node points into the heap. -/
def hnodeClosed (n : Nat) : HNode → Bool
  | .harr xs => xs.all (gvalClosed n)
  | .hobj fields => fields.all (fun p => gvalClosed n p.2)

/-- Every node of the heap only references heap nodes. -/
def heapClosed (heap : Heap) : Bool :=
  heap.all (hnodeClosed heap.length)

theorem lookup_append {α β : Type} [BEq α] (l1 l2 : List (α × β)) (k : α) :
    List.lookup k (l1 ++ l2) =
      (match List.lookup k l1 with
       | some v => some v
       | none => List.lookup k l2) := by
  induction l1 with
  | nil => simp [List.lookup]
  | cons x xs ih =>
    rcases x with ⟨a, b⟩
    simp only [List.cons_append, List.lookup]
    cases h : k == a <;> simp [h, ih]

theorem lookup_optStrField_same (k : String) (o : Option String) :
    List.lookup k (optStrField k o) = o.map JSVal.str := by
  cases o <;> simp [optStrField, List.lookup]

theorem lookup_optStrField_ne (k k' : String) (o : Option String)
    (h : (k' == k) = false) :
    List.lookup k' (optStrField k o) = none := by
  cases o <;> simp [optStrField, List.lookup, h]

theorem lookup_optValField_same (k : String) (o : Option JSVal) :
    List.lookup k (optValField k o) =
      (match o with
       | some v => if v.isUndef then none else some v
       | none => none) := by
  cases o with
  | none => simp [optValField, List.lookup]
  | some v => by_cases h : v.isUndef <;> simp [optValField, List.lookup, h]

theorem lookup_optValField_ne (k k' : String) (o : Option JSVal)
    (h : (k' == k) = false) :
    List.lookup k' (optValField k o) = none := by
  cases o with
  | none => simp [optValField, List.lookup]
  | some v => by_cases hv : v.isUndef <;> simp [optValField, List.lookup, h, hv]

theorem fileGet_callArgs (d : WrappedCallData) :
    fileGet (fileOfRecord d) "callArgs" = JSVal.str d.callArgs := by
  simp [fileGet, fileOfRecord, List.lookup]

theorem fileGet_callbackArgs (d : WrappedCallData) :
    fileGet (fileOfRecord d) "callbackArgs" =
      (match d.callbackArgs with
       | some s => JSVal.str s
       | none => JSVal.undef) := by
  have h0 : List.lookup "callbackArgs" [("callArgs", JSVal.str d.callArgs)] = none := rfl
  have h2 := lookup_optValField_ne "returnedPromise" "callbackArgs" d.returnedPromise (by decide)
  have h3 := lookup_optStrField_ne "promiseResolutionArgs" "callbackArgs"
    d.promiseResolutionArgs (by decide)
  have h4 := lookup_optStrField_ne "promiseRejectionArgs" "callbackArgs"
    d.promiseRejectionArgs (by decide)
  have h5 := lookup_optValField_ne "returnValue" "callbackArgs" d.returnValue (by decide)
  simp only [fileGet, fileOfRecord, List.append_assoc, lookup_append, h0, h2, h3, h4, h5,
    lookup_optStrField_same]
  cases d.callbackArgs <;> simp

theorem fileGet_returnedPromise (d : WrappedCallData) :
    fileGet (fileOfRecord d) "returnedPromise" =
      (match d.returnedPromise with
       | some v => if v.isUndef then JSVal.undef else v
       | none => JSVal.undef) := by
  have h0 : List.lookup "returnedPromise" [("callArgs", JSVal.str d.callArgs)] = none := rfl
  have h1 := lookup_optStrField_ne "callbackArgs" "returnedPromise" d.callbackArgs (by decide)
  have h3 := lookup_optStrField_ne "promiseResolutionArgs" "returnedPromise"
    d.promiseResolutionArgs (by decide)
  have h4 := lookup_optStrField_ne "promiseRejectionArgs" "returnedPromise"
    d.promiseRejectionArgs (by decide)
  have h5 := lookup_optValField_ne "returnValue" "returnedPromise" d.returnValue (by decide)
  simp only [fileGet, fileOfRecord, List.append_assoc, lookup_append, h0, h1, h3, h4, h5,
    lookup_optValField_same]
  cases d.returnedPromise with
  | none => simp
  | some v => by_cases h : v.isUndef <;> simp [h]

theorem fileGet_promiseResolutionArgs (d : WrappedCallData) :
    fileGet (fileOfRecord d) "promiseResolutionArgs" =
      (match d.promiseResolutionArgs with
       | some s => JSVal.str s
       | none => JSVal.undef) := by
  have h0 : List.lookup "promiseResolutionArgs" [("callArgs", JSVal.str d.callArgs)] = none := rfl
  have h1 := lookup_optStrField_ne "callbackArgs" "promiseResolutionArgs" d.callbackArgs (by decide)
  have h2 := lookup_optValField_ne "returnedPromise" "promiseResolutionArgs"
    d.returnedPromise (by decide)
  have h4 := lookup_optStrField_ne "promiseRejectionArgs" "promiseResolutionArgs"
    d.promiseRejectionArgs (by decide)
  have h5 := lookup_optValField_ne "returnValue" "promiseResolutionArgs" d.returnValue (by decide)
  simp only [fileGet, fileOfRecord, List.append_assoc, lookup_append, h0, h1, h2, h4, h5,
    lookup_optStrField_same]
  cases d.promiseResolutionArgs <;> simp

theorem fileGet_promiseRejectionArgs (d : WrappedCallData) :
    fileGet (fileOfRecord d) "promiseRejectionArgs" =
      (match d.promiseRejectionArgs with
       | some s => JSVal.str s
       | none => JSVal.undef) := by
  have h0 : List.lookup "promiseRejectionArgs" [("callArgs", JSVal.str d.callArgs)] = none := rfl
  have h1 := lookup_optStrField_ne "callbackArgs" "promiseRejectionArgs" d.callbackArgs (by decide)
  have h2 := lookup_optValField_ne "returnedPromise" "promiseRejectionArgs"
    d.returnedPromise (by decide)
  have h3 := lookup_optStrField_ne "promiseResolutionArgs" "promiseRejectionArgs"
    d.promiseResolutionArgs (by decide)
  have h5 := lookup_optValField_ne "returnValue" "promiseRejectionArgs" d.returnValue (by decide)
  simp only [fileGet, fileOfRecord, List.append_assoc, lookup_append, h0, h1, h2, h3, h5,
    lookup_optStrField_same]
  cases d.promiseRejectionArgs <;> simp

theorem fileGet_returnValue (d : WrappedCallData) :
    fileGet (fileOfRecord d) "returnValue" =
      (match d.returnValue with
       | some v => if v.isUndef then JSVal.undef else v
       | none => JSVal.undef) := by
  have h0 : List.lookup "returnValue" [("callArgs", JSVal.str d.callArgs)] = none := rfl
  have h1 := lookup_optStrField_ne "callbackArgs" "returnValue" d.callbackArgs (by decide)
  have h2 := lookup_optValField_ne "returnedPromise" "returnValue" d.returnedPromise (by decide)
  have h3 := lookup_optStrField_ne "promiseResolutionArgs" "returnValue"
    d.promiseResolutionArgs (by decide)
  have h4 := lookup_optStrField_ne "promiseRejectionArgs" "returnValue"
    d.promiseRejectionArgs (by decide)
  simp only [fileGet, fileOfRecord, List.append_assoc, lookup_append, h0, h1, h2, h3, h4,
    lookup_optValField_same]
  cases d.returnValue with
  | none => simp
  | some v => by_cases h : v.isUndef <;> simp [h]

theorem stringifyJsArr_data (xs : List JSVal) :
    (stringifyJsArr xs).data =
      '[' :: (String.intercalate "," (jsonStringifyElems xs) ++ "]").data := by
  simp [stringifyJsArr, String.data_append]

theorem str_stringifyJsArr_truthy (xs : List JSVal) :
    (JSVal.str (stringifyJsArr xs)).truthy = true := by
  simp [JSVal.truthy, stringifyJsArr_data]

/-- Modelled from the spec: the observable behavior of invoking the original,
unwrapped method directly — the method runs with the original arguments, its
callback fires with its own timing and arguments, its return value, promise
or thrown error reaches the caller unmodified, and the filesystem is
untouched. -/
def unwrappedCall (orig : OrigBehavior) (args : List JSVal) (fs : FS) : RunResult :=
  let syncCb : List Ev :=
    match orig.cbArgs with
    | some (CbTiming.duringCall, cargs) => [Ev.cbCall cargs]
    | _ => []
  let defCb : List Ev :=
    match orig.cbArgs with
    | some (CbTiming.afterReturn, cargs) => [Ev.cbCall cargs]
    | _ => []
  match orig.ret with
  | .retVal v => ⟨Ev.origInvoked args :: syncCb, defCb, .val v, fs⟩
  | .throwsVal v => ⟨Ev.origInvoked args :: syncCb, defCb, .thrown (.userThrown v), fs⟩
  | .retPromise s =>
    let settle : List Ev :=
      match s with
      | .resolvesWith v => [Ev.promResolve v]
      | .rejectsWith v => [Ev.promReject v]
      | .neverSettles => []
    ⟨Ev.origInvoked args :: syncCb, defCb ++ settle, .promiseHandle, fs⟩

/-- A predicate holds of every event a `replayCbTick` list can contain. -/
theorem replayCbTick_all (file : List (String × JSVal)) (args : List JSVal)
    (p : Ev → Bool) (hcb : ∀ xs, p (Ev.cbCall xs) = true)
    (ht : p Ev.tickThrew = true) :
    (replayCbTick file args).all p = true := by
  unfold replayCbTick
  split
  · split
    · split <;> simp [hcb, ht]
    · simp [ht]
  · simp

/-- A predicate holds of every event a `replaySettle` list can contain. -/
theorem replaySettle_all (file : List (String × JSVal)) (p : Ev → Bool)
    (hres : ∀ v, p (Ev.promResolve v) = true)
    (hrej : ∀ v, p (Ev.promReject v) = true)
    (ht : p Ev.tickThrew = true) :
    (replaySettle file).all p = true := by
  unfold replaySettle
  split
  · split <;> simp [hres, ht]
  · split
    · split <;> simp [hrej, ht]
    · simp [hrej]

/-- C10: with an options object lacking a directory field the fixture
directory defaults to `test/data`, while the string-shorthand form uses the
given string itself. -/
theorem C10_default_directory :
    (∀ (p m : Option String) (method : String) (env : Option String),
      (resolveOptions (.asObject none p m) method env).dir = "test/data") ∧
    (∀ (s method : String) (env : Option String),
      (resolveOptions (.asString s) method env).dir = s) := by
  constructor <;> intros <;> simp [resolveOptions, strFalsy]

/-- C8: in pass-through (live) mode the wrapped call is observably identical
to invoking the original unwrapped method — same result, same callback
invocations, same promise settlement, same thrown errors — and the wrapper
performs zero filesystem access (the filesystem is returned untouched and no
read or write event occurs). -/
theorem C8_passthrough_equiv (dir pfx : String) (orig : OrigBehavior)
    (args : List JSVal) (fs : FS) :
    runWrapped ⟨dir, pfx, some "live"⟩ orig args fs = unwrappedCall orig args fs ∧
    (runWrapped ⟨dir, pfx, some "live"⟩ orig args fs).fsAfter = fs ∧
    ((runWrapped ⟨dir, pfx, some "live"⟩ orig args fs).events.all
      (fun e => match e with
        | Ev.fsRead _ => false
        | Ev.fsWrite _ _ => false
        | _ => true)) = true := by
  have hrw : runWrapped ⟨dir, pfx, some "live"⟩ orig args fs = runLive orig args fs := rfl
  have hlu : runLive orig args fs = unwrappedCall orig args fs := rfl
  refine ⟨hrw.trans hlu, ?_, ?_⟩ <;>
  · rw [hrw]
    rcases orig with ⟨cb, ret⟩
    rcases cb with _ | ⟨t, cargs⟩ <;>
      [skip; cases t] <;>
      cases ret <;>
      simp [runLive, RunResult.events] <;>
      rename_i s <;> cases s <;> simp

/-- C5: in replay mode a missing fixture file makes the wrapped call throw,
synchronously and before any deferred work is scheduled, an error whose
message is the fixed header, the resolved fixture path in quotes, the
serialized-arguments label, the serialized call arguments, and the fixed
remediation footer; any other filesystem read failure propagates unchanged. -/
theorem C5_missing_fixture_error (dir pfx : String) (orig : OrigBehavior)
    (args : List JSVal) (fs : FS) :
    (fs (fixturePath dir pfx (stringifyJsArr args)) = FSEntry.absent →
      runWrapped ⟨dir, pfx, some "replay"⟩ orig args fs =
        ⟨[Ev.fsRead (fixturePath dir pfx (stringifyJsArr args))], [],
          .thrown (.errorObj (getNiceError (fixturePath dir pfx (stringifyJsArr args))
            (stringifyJsArr args))), fs⟩) ∧
    (∀ code, fs (fixturePath dir pfx (stringifyJsArr args)) = FSEntry.ioErr code →
      runWrapped ⟨dir, pfx, some "replay"⟩ orig args fs =
        ⟨[Ev.fsRead (fixturePath dir pfx (stringifyJsArr args))], [],
          .thrown (.fsRaw code), fs⟩) ∧
    (∀ f d, getNiceError f d =
      NICE_ERR_HEADER ++ " \"" ++ f ++ "\"\n\n" ++ NICE_ERR_SERIALIZATION_DESCRIPTOR ++
        ":\n" ++ d ++ "\n\n" ++ NICE_ERR_FOOTER) := by
  refine ⟨fun h => ?_, fun code h => ?_, fun f d => rfl⟩ <;>
  · have hrw : runWrapped ⟨dir, pfx, some "replay"⟩ orig args fs =
        runReplay ⟨dir, pfx, some "replay"⟩ args fs := rfl
    rw [hrw]
    simp only [runReplay]
    rw [h]

/-- C6: in replay mode (anything other than an explicit live or capture
mode) the original method is never invoked, and neither a callback
invocation nor a promise settlement occurs in the synchronous phase: those
are always deferred to a later scheduling turn. -/
theorem C6_replay_never_invokes_and_defers (dir pfx : String) (mode : Option String)
    (orig : OrigBehavior) (args : List JSVal) (fs : FS)
    (h1 : mode ≠ some "live") (h2 : mode ≠ some "capture") :
    ((runWrapped ⟨dir, pfx, mode⟩ orig args fs).events.all
      (fun e => match e with | Ev.origInvoked _ => false | _ => true)) = true ∧
    ((runWrapped ⟨dir, pfx, mode⟩ orig args fs).syncEvents.all
      (fun e => match e with
        | Ev.cbCall _ => false
        | Ev.promResolve _ => false
        | Ev.promReject _ => false
        | _ => true)) = true := by
  have hrw : runWrapped ⟨dir, pfx, mode⟩ orig args fs =
      runReplay ⟨dir, pfx, mode⟩ args fs := by
    simp [runWrapped, h1, h2]
  rw [hrw]
  simp only [runReplay]
  rcases hfs : fs (fixturePath dir pfx (stringifyJsArr args)) with _ | file | code <;>
    simp only [RunResult.events]
  · simp
  · have hcb := replayCbTick_all file args
      (fun e => match e with | Ev.origInvoked _ => false | _ => true) (fun _ => rfl) rfl
    have hs := replaySettle_all file
      (fun e => match e with | Ev.origInvoked _ => false | _ => true)
      (fun _ => rfl) (fun _ => rfl) rfl
    constructor
    · split
      · simp [List.all_append, hcb, hs]
      · split <;> simp [List.all_append, hcb]
    · split
      · rfl
      · split <;> rfl
  · simp

/-- C7: in replay mode, a fixture marked as a promise result but carrying
neither resolution nor rejection arguments yields a promise that rejects, on
a later scheduling turn, with the fixed `NICE_ERR_PROMISE` message. -/
theorem C7_unsettled_promise_rejects (dir pfx : String) (orig : OrigBehavior)
    (args : List JSVal) (fs : FS) (file : List (String × JSVal))
    (hread : fs (fixturePath dir pfx (stringifyJsArr args)) = FSEntry.fixtureFile file)
    (hrp : (fileGet file "returnedPromise").truthy = true)
    (hres : (fileGet file "promiseResolutionArgs").truthy = false)
    (hrej : (fileGet file "promiseRejectionArgs").truthy = false) :
    (runWrapped ⟨dir, pfx, some "replay"⟩ orig args fs).ret = CallRet.promiseHandle ∧
    (runWrapped ⟨dir, pfx, some "replay"⟩ orig args fs).syncEvents =
      [Ev.fsRead (fixturePath dir pfx (stringifyJsArr args))] ∧
    (runWrapped ⟨dir, pfx, some "replay"⟩ orig args fs).deferredEvents =
      replayCbTick file args ++ [Ev.promReject (JSVal.errObj NICE_ERR_PROMISE)] := by
  have hrw : runWrapped ⟨dir, pfx, some "replay"⟩ orig args fs =
      runReplay ⟨dir, pfx, some "replay"⟩ args fs := rfl
  have hsettle : replaySettle file = [Ev.promReject (JSVal.errObj NICE_ERR_PROMISE)] := by
    unfold replaySettle
    rw [hres, hrej]
    simp
  rw [hrw]
  simp only [runReplay]
  rw [hread]
  simp [hrp, hsettle]

/-- The keys of a parsed fixture object. -/
def fileKeys (file : List (String × JSVal)) : List String := file.map Prod.fst

/-- Does a parsed fixture object carry a key? -/
def fileHasKey (file : List (String × JSVal)) (k : String) : Bool :=
  (List.lookup k file).isSome

/-- Is there a write event whose file satisfies a predicate? -/
def hasWriteWith (evs : List Ev) (p : List (String × JSVal) → Bool) : Bool :=
  evs.any (fun e =>
    match e with
    | Ev.fsWrite _ f => p f
    | _ => false)

/-- The key set the fixture files of this implementation actually use. -/
def actualFixtureKeys : List String :=
  ["callArgs", "callbackArgs", "returnedPromise", "promiseResolutionArgs",
   "promiseRejectionArgs", "returnValue"]

/-- Modelled from the spec: the fixture-file key set of the schema in the
spec's external-interface section (callArgs, callbackArgs, returnedDeferred,
resolutionArgs, rejectionArgs, returnValue). -/
def specSchemaKeys : List String :=
  ["callArgs", "callbackArgs", "returnedDeferred", "resolutionArgs",
   "rejectionArgs", "returnValue"]

theorem fileHasKey_callArgs (d : WrappedCallData) :
    fileHasKey (fileOfRecord d) "callArgs" = true := by
  simp [fileHasKey, fileOfRecord, List.lookup]

theorem fileHasKey_res (d : WrappedCallData) :
    fileHasKey (fileOfRecord d) "promiseResolutionArgs" =
      d.promiseResolutionArgs.isSome := by
  have h0 : List.lookup "promiseResolutionArgs" [("callArgs", JSVal.str d.callArgs)] = none := rfl
  have h1 := lookup_optStrField_ne "callbackArgs" "promiseResolutionArgs" d.callbackArgs (by decide)
  have h2 := lookup_optValField_ne "returnedPromise" "promiseResolutionArgs"
    d.returnedPromise (by decide)
  have h4 := lookup_optStrField_ne "promiseRejectionArgs" "promiseResolutionArgs"
    d.promiseRejectionArgs (by decide)
  have h5 := lookup_optValField_ne "returnValue" "promiseResolutionArgs" d.returnValue (by decide)
  simp only [fileHasKey, fileOfRecord, List.append_assoc, lookup_append, h0, h1, h2, h4, h5,
    lookup_optStrField_same]
  cases d.promiseResolutionArgs <;> simp

theorem fileHasKey_rej (d : WrappedCallData) :
    fileHasKey (fileOfRecord d) "promiseRejectionArgs" =
      d.promiseRejectionArgs.isSome := by
  have h0 : List.lookup "promiseRejectionArgs" [("callArgs", JSVal.str d.callArgs)] = none := rfl
  have h1 := lookup_optStrField_ne "callbackArgs" "promiseRejectionArgs" d.callbackArgs (by decide)
  have h2 := lookup_optValField_ne "returnedPromise" "promiseRejectionArgs"
    d.returnedPromise (by decide)
  have h3 := lookup_optStrField_ne "promiseResolutionArgs" "promiseRejectionArgs"
    d.promiseResolutionArgs (by decide)
  have h5 := lookup_optValField_ne "returnValue" "promiseRejectionArgs" d.returnValue (by decide)
  simp only [fileHasKey, fileOfRecord, List.append_assoc, lookup_append, h0, h1, h2, h3, h5,
    lookup_optStrField_same]
  cases d.promiseRejectionArgs <;> simp

theorem fileHasKey_rv (d : WrappedCallData) :
    fileHasKey (fileOfRecord d) "returnValue" =
      (match d.returnValue with
       | some v => !v.isUndef
       | none => false) := by
  have h0 : List.lookup "returnValue" [("callArgs", JSVal.str d.callArgs)] = none := rfl
  have h1 := lookup_optStrField_ne "callbackArgs" "returnValue" d.callbackArgs (by decide)
  have h2 := lookup_optValField_ne "returnedPromise" "returnValue" d.returnedPromise (by decide)
  have h3 := lookup_optStrField_ne "promiseResolutionArgs" "returnValue"
    d.promiseResolutionArgs (by decide)
  have h4 := lookup_optStrField_ne "promiseRejectionArgs" "returnValue"
    d.promiseRejectionArgs (by decide)
  simp only [fileHasKey, fileOfRecord, List.append_assoc, lookup_append, h0, h1, h2, h3, h4,
    lookup_optValField_same]
  cases d.returnValue with
  | none => simp
  | some v => by_cases h : v.isUndef <;> simp [h]

theorem fileKeys_subset_actual (d : WrappedCallData) :
    ((fileKeys (fileOfRecord d)).all (fun k => actualFixtureKeys.contains k)) = true := by
  rcases d with ⟨ca, cb, rp, pr, pj, rv⟩
  cases cb <;> cases pr <;> cases pj <;>
    rcases rp with _ | v1 <;> rcases rv with _ | v2 <;>
    simp [fileKeys, fileOfRecord, optStrField, optValField, actualFixtureKeys] <;>
    split_ifs <;> simp


/-- C2 counterexample: in capture mode, a call with no trailing callback whose
outcome is a plain synchronous return (here the value 7) persists nothing:
the filesystem is returned unchanged, no write event occurs in either phase,
even though the call completed with that return value. -/
theorem C2_counterexample :
    (runWrapped ⟨"test/data", "m", some "capture"⟩ ⟨none, OrigRet.retVal (JSVal.num 7)⟩
      [JSVal.num 1] (fun _ => FSEntry.absent)).fsAfter = (fun _ => FSEntry.absent) ∧
    (runWrapped ⟨"test/data", "m", some "capture"⟩ ⟨none, OrigRet.retVal (JSVal.num 7)⟩
      [JSVal.num 1] (fun _ => FSEntry.absent)).syncEvents = [Ev.origInvoked [JSVal.num 1]] ∧
    (runWrapped ⟨"test/data", "m", some "capture"⟩ ⟨none, OrigRet.retVal (JSVal.num 7)⟩
      [JSVal.num 1] (fun _ => FSEntry.absent)).deferredEvents = [] ∧
    (runWrapped ⟨"test/data", "m", some "capture"⟩ ⟨none, OrigRet.retVal (JSVal.num 7)⟩
      [JSVal.num 1] (fun _ => FSEntry.absent)).ret = CallRet.val (JSVal.num 7) :=
  ⟨rfl, rfl, rfl, rfl⟩


theorem captureCbDuring_some_during (filepath : String) (cargs : List JSVal)
    (d : WrappedCallData) (fsx : FS) :
    captureCbDuring filepath (some (CbTiming.duringCall, cargs)) d fsx =
      ({ d with callbackArgs := some (stringifyJsArr cargs) },
        fsWriteF fsx filepath
          (fileOfRecord { d with callbackArgs := some (stringifyJsArr cargs) }),
        [Ev.fsWrite filepath
          (fileOfRecord { d with callbackArgs := some (stringifyJsArr cargs) }),
         Ev.cbCall cargs]) := rfl

theorem captureCbDuring_some_after (filepath : String) (cargs : List JSVal)
    (d : WrappedCallData) (fsx : FS) :
    captureCbDuring filepath (some (CbTiming.afterReturn, cargs)) d fsx = (d, fsx, []) := rfl

theorem captureCbDuring_none (filepath : String) (d : WrappedCallData) (fsx : FS) :
    captureCbDuring filepath none d fsx = (d, fsx, []) := rfl

theorem captureCbAfter_some_after (filepath : String) (cargs : List JSVal)
    (d : WrappedCallData) (fsx : FS) :
    captureCbAfter filepath (some (CbTiming.afterReturn, cargs)) d fsx =
      ({ d with callbackArgs := some (stringifyJsArr cargs) },
        fsWriteF fsx filepath
          (fileOfRecord { d with callbackArgs := some (stringifyJsArr cargs) }),
        [Ev.fsWrite filepath
          (fileOfRecord { d with callbackArgs := some (stringifyJsArr cargs) }),
         Ev.cbCall cargs]) := rfl

theorem captureCbAfter_some_during (filepath : String) (cargs : List JSVal)
    (d : WrappedCallData) (fsx : FS) :
    captureCbAfter filepath (some (CbTiming.duringCall, cargs)) d fsx = (d, fsx, []) := rfl

theorem captureCbAfter_none (filepath : String) (d : WrappedCallData) (fsx : FS) :
    captureCbAfter filepath none d fsx = (d, fsx, []) := rfl

theorem fsWriteF_same (fs : FS) (p : String) (file : List (String × JSVal)) :
    fsWriteF fs p file p = FSEntry.fixtureFile file := by
  simp [fsWriteF]

theorem jsAnd_jsBool_false_truthy (v : JSVal) :
    (jsAnd v (JSVal.jsBool false)).truthy = false := by
  unfold jsAnd
  by_cases h : v.truthy = true
  · rw [if_pos h]
    rfl
  · rw [if_neg h]
    simp only [Bool.not_eq_true] at h
    exact h

/-- C2 (amended): in capture mode every callback settle and every promise
settle (resolution or rejection) triggers a full write of the then-current
record to the fixture path — but a plain synchronous return does not: with
no callback in play and a non-future return value, the run performs no write
at all and the filesystem is unchanged (the in-memory record's
`returnValue` never reaches disk). -/
theorem C2_writes_on_settles (dir pfx : String) (orig : OrigBehavior)
    (args : List JSVal) (fs : FS) :
    (∀ t cargs, lastIsFn args = true → orig.cbArgs = some (t, cargs) →
      ∃ d : WrappedCallData,
        d.callArgs = stringifyJsArr args ∧
        d.callbackArgs = some (stringifyJsArr cargs) ∧
        Ev.fsWrite (fixturePath dir pfx (stringifyJsArr args)) (fileOfRecord d) ∈
          (runWrapped ⟨dir, pfx, some "capture"⟩ orig args fs).events) ∧
    (∀ v, orig.ret = OrigRet.retPromise (PromSettle.resolvesWith v) →
      ∃ d : WrappedCallData,
        d.callArgs = stringifyJsArr args ∧
        d.promiseResolutionArgs = some (stringifyJsArr [v]) ∧
        Ev.fsWrite (fixturePath dir pfx (stringifyJsArr args)) (fileOfRecord d) ∈
          (runWrapped ⟨dir, pfx, some "capture"⟩ orig args fs).deferredEvents ∧
        (runWrapped ⟨dir, pfx, some "capture"⟩ orig args fs).fsAfter
            (fixturePath dir pfx (stringifyJsArr args)) =
          FSEntry.fixtureFile (fileOfRecord d)) ∧
    (∀ v, orig.ret = OrigRet.retPromise (PromSettle.rejectsWith v) →
      ∃ d : WrappedCallData,
        d.callArgs = stringifyJsArr args ∧
        d.promiseRejectionArgs = some (stringifyJsArr [v]) ∧
        Ev.fsWrite (fixturePath dir pfx (stringifyJsArr args)) (fileOfRecord d) ∈
          (runWrapped ⟨dir, pfx, some "capture"⟩ orig args fs).deferredEvents ∧
        (runWrapped ⟨dir, pfx, some "capture"⟩ orig args fs).fsAfter
            (fixturePath dir pfx (stringifyJsArr args)) =
          FSEntry.fixtureFile (fileOfRecord d)) ∧
    (orig.cbArgs = none → ∀ v, orig.ret = OrigRet.retVal v →
      (v.getProp "then").truthy = false →
      (runWrapped ⟨dir, pfx, some "capture"⟩ orig args fs).fsAfter = fs ∧
      ((runWrapped ⟨dir, pfx, some "capture"⟩ orig args fs).events.all
        (fun e => match e with | Ev.fsWrite _ _ => false | _ => true)) = true) := by
  have hrw : runWrapped ⟨dir, pfx, some "capture"⟩ orig args fs =
      runCapture ⟨dir, pfx, some "capture"⟩ orig args fs := rfl
  refine ⟨?_, ?_, ?_, ?_⟩
  · -- callback settle
    intro t cargs hl hcb
    rw [hrw]
    simp only [runCapture, hl, hcb, if_true]
    cases t with
    | duringCall =>
      refine ⟨{ callArgs := stringifyJsArr args,
                callbackArgs := some (stringifyJsArr cargs) }, rfl, rfl, ?_⟩
      rcases orig.ret with v | s | v <;>
        simp only [captureCbDuring_some_during, RunResult.events]
      · split <;> simp [RunResult.events]
      · rcases s with v | v | _ <;> simp [RunResult.events]
      · simp [RunResult.events]
    | afterReturn =>
      rcases hret : orig.ret with v | s | v
      · by_cases hrp : (jsAnd v (JSVal.jsBool (v.getProp "then").truthy)).truthy = true
        · simp only [captureCbDuring_some_after]
          rw [if_pos hrp]
          simp only [captureCbAfter_some_after, RunResult.events]
          exact ⟨{ callArgs := stringifyJsArr args,
                   callbackArgs := some (stringifyJsArr cargs),
                   returnedPromise :=
                     some (jsAnd v (JSVal.jsBool (v.getProp "then").truthy)) },
                 rfl, rfl, by simp⟩
        · simp only [captureCbDuring_some_after]
          rw [if_neg hrp]
          simp only [captureCbAfter_some_after, RunResult.events]
          exact ⟨{ callArgs := stringifyJsArr args,
                   callbackArgs := some (stringifyJsArr cargs),
                   returnedPromise :=
                     some (jsAnd v (JSVal.jsBool (v.getProp "then").truthy)),
                   returnValue := some (serOut v) },
                 rfl, rfl, by simp⟩
      · rcases s with v | v | _ <;>
          simp only [captureCbDuring_some_after, captureCbAfter_some_after,
            RunResult.events] <;>
          exact ⟨{ callArgs := stringifyJsArr args,
                   callbackArgs := some (stringifyJsArr cargs),
                   returnedPromise := some (JSVal.jsBool true) },
                 rfl, rfl, by simp⟩
      · simp only [captureCbDuring_some_after, captureCbAfter_some_after, RunResult.events]
        exact ⟨{ callArgs := stringifyJsArr args,
                 callbackArgs := some (stringifyJsArr cargs) },
               rfl, rfl, by simp⟩
  · -- promise resolution settle
    intro v hret
    rw [hrw]
    simp only [runCapture, hret]
    rcases hcbs : (if lastIsFn args then orig.cbArgs else none) with _ | ⟨t, cargs⟩
    · simp only [captureCbDuring_none, captureCbAfter_none]
      exact ⟨{ callArgs := stringifyJsArr args,
               returnedPromise := some (JSVal.jsBool true),
               promiseResolutionArgs := some (stringifyJsArr [v]) },
             rfl, rfl, by simp, by rw [fsWriteF_same]⟩
    · cases t with
      | duringCall =>
        simp only [captureCbDuring_some_during, captureCbAfter_some_during]
        exact ⟨{ callArgs := stringifyJsArr args,
                 callbackArgs := some (stringifyJsArr cargs),
                 returnedPromise := some (JSVal.jsBool true),
                 promiseResolutionArgs := some (stringifyJsArr [v]) },
               rfl, rfl, by simp, by rw [fsWriteF_same]⟩
      | afterReturn =>
        simp only [captureCbDuring_some_after, captureCbAfter_some_after]
        exact ⟨{ callArgs := stringifyJsArr args,
                 callbackArgs := some (stringifyJsArr cargs),
                 returnedPromise := some (JSVal.jsBool true),
                 promiseResolutionArgs := some (stringifyJsArr [v]) },
               rfl, rfl, by simp, by rw [fsWriteF_same]⟩
  · -- promise rejection settle
    intro v hret
    rw [hrw]
    simp only [runCapture, hret]
    rcases hcbs : (if lastIsFn args then orig.cbArgs else none) with _ | ⟨t, cargs⟩
    · simp only [captureCbDuring_none, captureCbAfter_none]
      exact ⟨{ callArgs := stringifyJsArr args,
               returnedPromise := some (JSVal.jsBool true),
               promiseRejectionArgs := some (stringifyJsArr [v]) },
             rfl, rfl, by simp, by rw [fsWriteF_same]⟩
    · cases t with
      | duringCall =>
        simp only [captureCbDuring_some_during, captureCbAfter_some_during]
        exact ⟨{ callArgs := stringifyJsArr args,
                 callbackArgs := some (stringifyJsArr cargs),
                 returnedPromise := some (JSVal.jsBool true),
                 promiseRejectionArgs := some (stringifyJsArr [v]) },
               rfl, rfl, by simp, by rw [fsWriteF_same]⟩
      | afterReturn =>
        simp only [captureCbDuring_some_after, captureCbAfter_some_after]
        exact ⟨{ callArgs := stringifyJsArr args,
                 callbackArgs := some (stringifyJsArr cargs),
                 returnedPromise := some (JSVal.jsBool true),
                 promiseRejectionArgs := some (stringifyJsArr [v]) },
               rfl, rfl, by simp, by rw [fsWriteF_same]⟩
  · -- plain synchronous return: no write
    intro hcb v hret hthen
    rw [hrw]
    simp only [runCapture, hret, hcb, ite_self, captureCbDuring_none]
    rw [hthen]
    rw [if_neg (by simp [jsAnd_jsBool_false_truthy])]
    simp only [captureCbAfter_none]
    constructor <;> trivial


/-- C3 counterexample: a capture of a call that both passes a trailing
callback (fired on a later turn with `[null, "ok"]`) and returns the plain
value 5 persists a record populating two outcome groups at once:
`callbackArgs` and `returnValue`. -/
theorem C3_counterexample :
    hasWriteWith
      (runWrapped ⟨"test/data", "m", some "capture"⟩
        ⟨some (CbTiming.afterReturn, [JSVal.jsNull, JSVal.str "ok"]),
         OrigRet.retVal (JSVal.num 5)⟩
        [JSVal.num 1, JSVal.fn] (fun _ => FSEntry.absent)).deferredEvents
      (fun f => fileHasKey f "callbackArgs" && fileHasKey f "returnValue") = true := rfl

/-- C3 (amended): every record capture mode persists carries `callArgs`;
resolution and rejection data are never both present; and a synchronous
return value never coexists with promise-settlement data.  The original
exactly-one-group invariant holds only up to callback data, which may
accompany either a return value or promise data when one call both has a
trailing callback and produces a return/future (the dual-shape ambiguity the
spec's design notes leave open). -/
theorem C3_outcome_groups (dir pfx : String) (orig : OrigBehavior)
    (args : List JSVal) (fs : FS) :
    ((runWrapped ⟨dir, pfx, some "capture"⟩ orig args fs).events.all
      (fun e => match e with
        | Ev.fsWrite _ f =>
          fileHasKey f "callArgs" &&
          !(fileHasKey f "promiseResolutionArgs" && fileHasKey f "promiseRejectionArgs") &&
          !(fileHasKey f "returnValue" &&
            (fileHasKey f "promiseResolutionArgs" || fileHasKey f "promiseRejectionArgs"))
        | _ => true)) = true := by
  have hrw : runWrapped ⟨dir, pfx, some "capture"⟩ orig args fs =
      runCapture ⟨dir, pfx, some "capture"⟩ orig args fs := rfl
  rw [hrw]
  simp only [runCapture]
  rcases hcbs : (if lastIsFn args then orig.cbArgs else none) with _ | ⟨t, cargs⟩ <;>
    [skip; cases t] <;>
    rcases orig.ret with v | s | v <;>
    simp only [captureCbDuring_none, captureCbDuring_some_during, captureCbDuring_some_after,
      captureCbAfter_none, captureCbAfter_some_during, captureCbAfter_some_after] <;>
    first
    | (rcases s with v | v | _ <;>
        simp [RunResult.events, fileHasKey_callArgs, fileHasKey_res, fileHasKey_rej,
          fileHasKey_rv])
    | (try split) <;>
      simp [RunResult.events, fileHasKey_callArgs, fileHasKey_res, fileHasKey_rej,
        fileHasKey_rv]

theorem fileKeys_mem_actual (d : WrappedCallData) :
    ∀ k ∈ fileKeys (fileOfRecord d), k ∈ actualFixtureKeys := by
  rcases d with ⟨ca, cb, rp, pr, pj, rv⟩
  cases cb <;> cases pr <;> cases pj <;>
    rcases rp with _ | v1 <;> rcases rv with _ | v2 <;>
    simp [fileKeys, fileOfRecord, optStrField, optValField, actualFixtureKeys] <;>
    tauto

/-- C4 counterexample: a capture of a promise-returning call persists a file
whose keys are not all drawn from the spec schema's key set: the written
object uses `returnedPromise` and `promiseResolutionArgs`, not the spec's
`returnedDeferred` and `resolutionArgs`. -/
theorem C4_counterexample :
    hasWriteWith
      (runWrapped ⟨"test/data", "m", some "capture"⟩
        ⟨none, OrigRet.retPromise (PromSettle.resolvesWith (JSVal.str "v"))⟩
        [JSVal.num 3] (fun _ => FSEntry.absent)).deferredEvents
      (fun f => (fileKeys f).any (fun k => !(specSchemaKeys.contains k))) = true := rfl

/-- C4 (amended): every fixture file capture mode writes is one JSON object
at the fixture path `dir/pfx-<fingerprint>.json`, the fingerprint being the
first `HASH_LENGTH` (12) hex characters of the SHA-256 of the serialized
call arguments; `callArgs` is always present and every key is drawn from the
implementation's actual key set (`callArgs`, `callbackArgs`,
`returnedPromise`, `promiseResolutionArgs`, `promiseRejectionArgs`,
`returnValue` — the spec's `returnedDeferred`/`resolutionArgs`/
`rejectionArgs` appear under the latter three names); equal serialized
arguments always resolve to the same file. -/
theorem C4_fixture_file_shape (dir pfx : String) (orig : OrigBehavior)
    (args : List JSVal) (fs : FS) :
    ((runWrapped ⟨dir, pfx, some "capture"⟩ orig args fs).events.all
      (fun e => match e with
        | Ev.fsWrite p f =>
          (p == fixturePath dir pfx (stringifyJsArr args)) &&
          fileHasKey f "callArgs" &&
          (fileKeys f).all (fun k => actualFixtureKeys.contains k)
        | _ => true)) = true ∧
    (∀ d p s, fixturePath d p s =
      pathJoin d (p ++ "-" ++ (sha256hex (utf8Bytes s)).take HASH_LENGTH ++ ".json")) ∧
    (∀ (d p : String) (a1 a2 : List JSVal), stringifyJsArr a1 = stringifyJsArr a2 →
      fixturePath d p (stringifyJsArr a1) = fixturePath d p (stringifyJsArr a2)) := by
  refine ⟨?_, fun d p s => rfl, fun d p a1 a2 h => by rw [h]⟩
  have hrw : runWrapped ⟨dir, pfx, some "capture"⟩ orig args fs =
      runCapture ⟨dir, pfx, some "capture"⟩ orig args fs := rfl
  rw [hrw]
  simp only [runCapture]
  rcases hcbs : (if lastIsFn args then orig.cbArgs else none) with _ | ⟨t, cargs⟩ <;>
    [skip; cases t] <;>
    rcases orig.ret with v | s | v <;>
    simp only [captureCbDuring_none, captureCbDuring_some_during, captureCbDuring_some_after,
      captureCbAfter_none, captureCbAfter_some_during, captureCbAfter_some_after] <;>
    first
    | (rcases s with v | v | _ <;>
        simp [RunResult.events, fileHasKey_callArgs, fileKeys_subset_actual] <;>
        (try constructor) <;>
        (try exact fun x hx => fileKeys_mem_actual _ x hx))
    | ((try split) <;>
      simp [RunResult.events, fileHasKey_callArgs, fileKeys_subset_actual] <;>
      (try constructor) <;>
      (try exact fun x hx => fileKeys_mem_actual _ x hx))

theorem C2_writes_on_settles_witness :
    (∃ d : WrappedCallData,
      d.callArgs = stringifyJsArr [JSVal.fn] ∧
      d.callbackArgs = some (stringifyJsArr [JSVal.jsNull]) ∧
      Ev.fsWrite (fixturePath "test/data" "m" (stringifyJsArr [JSVal.fn])) (fileOfRecord d) ∈
        (runWrapped ⟨"test/data", "m", some "capture"⟩
          ⟨some (CbTiming.duringCall, [JSVal.jsNull]), OrigRet.retVal JSVal.undef⟩
          [JSVal.fn] (fun _ => FSEntry.absent)).events) ∧
    ((runWrapped ⟨"test/data", "m", some "capture"⟩ ⟨none, OrigRet.retVal (JSVal.num 7)⟩
        [JSVal.num 1] (fun _ => FSEntry.absent)).fsAfter = (fun _ => FSEntry.absent) ∧
      ((runWrapped ⟨"test/data", "m", some "capture"⟩ ⟨none, OrigRet.retVal (JSVal.num 7)⟩
        [JSVal.num 1] (fun _ => FSEntry.absent)).events.all
        (fun e => match e with | Ev.fsWrite _ _ => false | _ => true)) = true) :=
  ⟨(C2_writes_on_settles "test/data" "m"
      ⟨some (CbTiming.duringCall, [JSVal.jsNull]), OrigRet.retVal JSVal.undef⟩
      [JSVal.fn] (fun _ => FSEntry.absent)).1 CbTiming.duringCall [JSVal.jsNull]
      (by decide) rfl,
   (C2_writes_on_settles "test/data" "m" ⟨none, OrigRet.retVal (JSVal.num 7)⟩
      [JSVal.num 1] (fun _ => FSEntry.absent)).2.2.2 rfl (JSVal.num 7) rfl (by decide)⟩

theorem C4_fixture_file_shape_witness :
    ((runWrapped ⟨"test/data", "m", some "capture"⟩
        ⟨none, OrigRet.retPromise (PromSettle.resolvesWith (JSVal.str "v"))⟩
        [JSVal.num 3] (fun _ => FSEntry.absent)).events.all
      (fun e => match e with
        | Ev.fsWrite p f =>
          (p == fixturePath "test/data" "m" (stringifyJsArr [JSVal.num 3])) &&
          fileHasKey f "callArgs" &&
          (fileKeys f).all (fun k => actualFixtureKeys.contains k)
        | _ => true)) = true ∧
    fixturePath "test/data" "m" (stringifyJsArr []) =
      fixturePath "test/data" "m" (stringifyJsArr []) :=
  ⟨(C4_fixture_file_shape "test/data" "m"
      ⟨none, OrigRet.retPromise (PromSettle.resolvesWith (JSVal.str "v"))⟩
      [JSVal.num 3] (fun _ => FSEntry.absent)).1,
   (C4_fixture_file_shape "test/data" "m"
      ⟨none, OrigRet.retPromise (PromSettle.resolvesWith (JSVal.str "v"))⟩
      [JSVal.num 3] (fun _ => FSEntry.absent)).2.2 "test/data" "m" [] [] rfl⟩

theorem C5_missing_fixture_error_witness :
    (runWrapped ⟨"test/data", "m", some "replay"⟩ ⟨none, OrigRet.retVal JSVal.undef⟩
        [JSVal.num 1] (fun _ => FSEntry.absent) =
      ⟨[Ev.fsRead (fixturePath "test/data" "m" (stringifyJsArr [JSVal.num 1]))], [],
        CallRet.thrown (JsErr.errorObj (getNiceError
          (fixturePath "test/data" "m" (stringifyJsArr [JSVal.num 1]))
          (stringifyJsArr [JSVal.num 1]))),
        fun _ => FSEntry.absent⟩) ∧
    (runWrapped ⟨"test/data", "m", some "replay"⟩ ⟨none, OrigRet.retVal JSVal.undef⟩
        [JSVal.num 1] (fun _ => FSEntry.ioErr "EACCES") =
      ⟨[Ev.fsRead (fixturePath "test/data" "m" (stringifyJsArr [JSVal.num 1]))], [],
        CallRet.thrown (JsErr.fsRaw "EACCES"), fun _ => FSEntry.ioErr "EACCES"⟩) :=
  ⟨(C5_missing_fixture_error "test/data" "m" ⟨none, OrigRet.retVal JSVal.undef⟩
      [JSVal.num 1] (fun _ => FSEntry.absent)).1 rfl,
   (C5_missing_fixture_error "test/data" "m" ⟨none, OrigRet.retVal JSVal.undef⟩
      [JSVal.num 1] (fun _ => FSEntry.ioErr "EACCES")).2.1 "EACCES" rfl⟩

theorem C6_replay_never_invokes_and_defers_witness :
    ((runWrapped ⟨"test/data", "m", some "replay"⟩ ⟨none, OrigRet.retVal JSVal.undef⟩ []
        (fun _ => FSEntry.absent)).events.all
      (fun e => match e with | Ev.origInvoked _ => false | _ => true)) = true ∧
    ((runWrapped ⟨"test/data", "m", some "replay"⟩ ⟨none, OrigRet.retVal JSVal.undef⟩ []
        (fun _ => FSEntry.absent)).syncEvents.all
      (fun e => match e with
        | Ev.cbCall _ => false
        | Ev.promResolve _ => false
        | Ev.promReject _ => false
        | _ => true)) = true :=
  C6_replay_never_invokes_and_defers "test/data" "m" (some "replay")
    ⟨none, OrigRet.retVal JSVal.undef⟩ [] (fun _ => FSEntry.absent)
    (by decide) (by decide)

theorem C7_unsettled_promise_rejects_witness :
    (runWrapped ⟨"test/data", "m", some "replay"⟩ ⟨none, OrigRet.retVal JSVal.undef⟩ []
        (fun _ => FSEntry.fixtureFile [("returnedPromise", JSVal.jsBool true)])).ret =
      CallRet.promiseHandle ∧
    (runWrapped ⟨"test/data", "m", some "replay"⟩ ⟨none, OrigRet.retVal JSVal.undef⟩ []
        (fun _ => FSEntry.fixtureFile [("returnedPromise", JSVal.jsBool true)])).syncEvents =
      [Ev.fsRead (fixturePath "test/data" "m" (stringifyJsArr []))] ∧
    (runWrapped ⟨"test/data", "m", some "replay"⟩ ⟨none, OrigRet.retVal JSVal.undef⟩ []
        (fun _ => FSEntry.fixtureFile [("returnedPromise", JSVal.jsBool true)])).deferredEvents =
      replayCbTick [("returnedPromise", JSVal.jsBool true)] [] ++
        [Ev.promReject (JSVal.errObj NICE_ERR_PROMISE)] :=
  C7_unsettled_promise_rejects "test/data" "m" ⟨none, OrigRet.retVal JSVal.undef⟩ []
    (fun _ => FSEntry.fixtureFile [("returnedPromise", JSVal.jsBool true)])
    [("returnedPromise", JSVal.jsBool true)] rfl (by decide) (by decide) (by decide)

theorem truthy_isUndef_false (v : JSVal) (h : v.truthy = true) : v.isUndef = false := by
  cases v <;> first | rfl | (exact absurd h (by decide))

/-- In replay mode, a fixture whose `callbackArgs` holds the serialization of
`cargs` leads to the original callback being scheduled with `cargs` on a
later turn (assuming the payload parses back to the same array). -/
theorem replay_cb_delivery (dir pfx : String) (orig : OrigBehavior)
    (args cargs : List JSVal) (fs2 : FS) (f : List (String × JSVal))
    (hread : fs2 (fixturePath dir pfx (stringifyJsArr args)) = FSEntry.fixtureFile f)
    (hl : lastIsFn args = true)
    (hcbf : fileGet f "callbackArgs" = JSVal.str (stringifyJsArr cargs))
    (hjp : jparse (stringifyJsArr cargs) = Except.ok (JSVal.arr cargs)) :
    Ev.cbCall cargs ∈ (runWrapped ⟨dir, pfx, some "replay"⟩ orig args fs2).deferredEvents := by
  have hrw : runWrapped ⟨dir, pfx, some "replay"⟩ orig args fs2 =
      runReplay ⟨dir, pfx, some "replay"⟩ args fs2 := rfl
  have hcbt : replayCbTick f args = [Ev.cbCall cargs] := by
    unfold replayCbTick
    rw [hcbf, if_pos (str_stringifyJsArr_truthy cargs), if_pos hl]
    simp only [jsJsonParse, hjp]
  rw [hrw]
  simp only [runReplay, hread]
  by_cases hp : (fileGet f "returnedPromise").truthy = true
  · rw [if_pos hp]
    simp [hcbt]
  · rw [if_neg hp]
    rcases hj : jsJsonParse (fileGet f "returnValue") with e | v2 <;> simp [hcbt]

/-- In replay mode, a fixture marked `returnedPromise` with a serialized
resolution payload leads to a promise that resolves with the recorded value
on a later turn. -/
theorem replay_promise_resolution (dir pfx : String) (orig : OrigBehavior)
    (args : List JSVal) (v : JSVal) (fs2 : FS) (f : List (String × JSVal))
    (hread : fs2 (fixturePath dir pfx (stringifyJsArr args)) = FSEntry.fixtureFile f)
    (hrp : fileGet f "returnedPromise" = JSVal.jsBool true)
    (hres : fileGet f "promiseResolutionArgs" = JSVal.str (stringifyJsArr [v]))
    (hjp : jparse (stringifyJsArr [v]) = Except.ok (JSVal.arr [v])) :
    Ev.promResolve v ∈ (runWrapped ⟨dir, pfx, some "replay"⟩ orig args fs2).deferredEvents := by
  have hrw : runWrapped ⟨dir, pfx, some "replay"⟩ orig args fs2 =
      runReplay ⟨dir, pfx, some "replay"⟩ args fs2 := rfl
  have hsettle : replaySettle f = [Ev.promResolve v] := by
    unfold replaySettle
    rw [hres, if_pos (str_stringifyJsArr_truthy [v])]
    simp only [jsJsonParse, hjp]
    rfl
  rw [hrw]
  simp only [runReplay, hread, hrp]
  simp [hsettle, JSVal.truthy]

/-- In replay mode, a fixture marked `returnedPromise` with no resolution
payload and a serialized rejection payload leads to a promise that rejects
with the recorded reason on a later turn. -/
theorem replay_promise_rejection (dir pfx : String) (orig : OrigBehavior)
    (args : List JSVal) (v : JSVal) (fs2 : FS) (f : List (String × JSVal))
    (hread : fs2 (fixturePath dir pfx (stringifyJsArr args)) = FSEntry.fixtureFile f)
    (hrp : fileGet f "returnedPromise" = JSVal.jsBool true)
    (hres : (fileGet f "promiseResolutionArgs").truthy = false)
    (hrej : fileGet f "promiseRejectionArgs" = JSVal.str (stringifyJsArr [v]))
    (hjp : jparse (stringifyJsArr [v]) = Except.ok (JSVal.arr [v])) :
    Ev.promReject v ∈ (runWrapped ⟨dir, pfx, some "replay"⟩ orig args fs2).deferredEvents := by
  have hrw : runWrapped ⟨dir, pfx, some "replay"⟩ orig args fs2 =
      runReplay ⟨dir, pfx, some "replay"⟩ args fs2 := rfl
  have hsettle : replaySettle f = [Ev.promReject v] := by
    unfold replaySettle
    rw [hres, if_neg (by simp), hrej, if_pos (str_stringifyJsArr_truthy [v])]
    simp only [jsJsonParse, hjp]
    rfl
  rw [hrw]
  simp only [runReplay, hread, hrp]
  simp [hsettle, JSVal.truthy]


/-- After a capture run of a call with a trailing callback that the original
method fires with `cargs`, the fixture file at the fingerprint path holds a
record whose `callbackArgs` is the serialization of `cargs`. -/
theorem capture_cb_record (dir pfx : String) (orig : OrigBehavior)
    (args : List JSVal) (t : CbTiming) (cargs : List JSVal) (fs : FS)
    (hl : lastIsFn args = true) (hcb : orig.cbArgs = some (t, cargs)) :
    ∃ f, (runWrapped ⟨dir, pfx, some "capture"⟩ orig args fs).fsAfter
        (fixturePath dir pfx (stringifyJsArr args)) = FSEntry.fixtureFile f ∧
      fileGet f "callbackArgs" = JSVal.str (stringifyJsArr cargs) := by
  have hrw : runWrapped ⟨dir, pfx, some "capture"⟩ orig args fs =
      runCapture ⟨dir, pfx, some "capture"⟩ orig args fs := rfl
  rw [hrw]
  simp only [runCapture, hl, hcb, if_true]
  cases t with
  | duringCall =>
    rcases orig.ret with v | s | v <;>
      simp only [captureCbDuring_some_during, captureCbAfter_some_during]
    · split <;>
        exact ⟨_, fsWriteF_same _ _ _, by simp [fileGet_callbackArgs]⟩
    · rcases s with v | v | _ <;>
        exact ⟨_, fsWriteF_same _ _ _, by simp [fileGet_callbackArgs]⟩
    · exact ⟨_, fsWriteF_same _ _ _, by simp [fileGet_callbackArgs]⟩
  | afterReturn =>
    rcases orig.ret with v | s | v <;>
      simp only [captureCbDuring_some_after, captureCbAfter_some_after]
    · split <;>
        exact ⟨_, fsWriteF_same _ _ _, by simp [fileGet_callbackArgs]⟩
    · rcases s with v | v | _ <;>
        exact ⟨_, fsWriteF_same _ _ _, by simp [fileGet_callbackArgs]⟩
    · exact ⟨_, fsWriteF_same _ _ _, by simp [fileGet_callbackArgs]⟩

/-- After a capture run of a promise-returning call that resolves with `v`,
the caller observed the same resolution on a later turn, and the fixture
file holds `returnedPromise: true` with the serialized resolution payload. -/
theorem capture_promise_res_record (dir pfx : String) (orig : OrigBehavior)
    (args : List JSVal) (v : JSVal) (fs : FS)
    (hret : orig.ret = OrigRet.retPromise (PromSettle.resolvesWith v)) :
    Ev.promResolve v ∈ (runWrapped ⟨dir, pfx, some "capture"⟩ orig args fs).deferredEvents ∧
    ∃ f, (runWrapped ⟨dir, pfx, some "capture"⟩ orig args fs).fsAfter
        (fixturePath dir pfx (stringifyJsArr args)) = FSEntry.fixtureFile f ∧
      fileGet f "returnedPromise" = JSVal.jsBool true ∧
      fileGet f "promiseResolutionArgs" = JSVal.str (stringifyJsArr [v]) := by
  have hrw : runWrapped ⟨dir, pfx, some "capture"⟩ orig args fs =
      runCapture ⟨dir, pfx, some "capture"⟩ orig args fs := rfl
  rw [hrw]
  simp only [runCapture, hret]
  rcases (if lastIsFn args then orig.cbArgs else none) with _ | ⟨t, cargs⟩ <;>
    [skip; cases t] <;>
    simp only [captureCbDuring_none, captureCbDuring_some_during, captureCbDuring_some_after,
      captureCbAfter_none, captureCbAfter_some_during, captureCbAfter_some_after] <;>
    exact ⟨by simp,
      ⟨_, fsWriteF_same _ _ _, by simp [fileGet_returnedPromise, JSVal.isUndef],
        by simp [fileGet_promiseResolutionArgs]⟩⟩

/-- After a capture run of a promise-returning call that rejects with `v`,
the caller observed the same rejection on a later turn, and the fixture file
holds `returnedPromise: true`, no resolution payload, and the serialized
rejection payload. -/
theorem capture_promise_rej_record (dir pfx : String) (orig : OrigBehavior)
    (args : List JSVal) (v : JSVal) (fs : FS)
    (hret : orig.ret = OrigRet.retPromise (PromSettle.rejectsWith v)) :
    Ev.promReject v ∈ (runWrapped ⟨dir, pfx, some "capture"⟩ orig args fs).deferredEvents ∧
    ∃ f, (runWrapped ⟨dir, pfx, some "capture"⟩ orig args fs).fsAfter
        (fixturePath dir pfx (stringifyJsArr args)) = FSEntry.fixtureFile f ∧
      fileGet f "returnedPromise" = JSVal.jsBool true ∧
      (fileGet f "promiseResolutionArgs").truthy = false ∧
      fileGet f "promiseRejectionArgs" = JSVal.str (stringifyJsArr [v]) := by
  have hrw : runWrapped ⟨dir, pfx, some "capture"⟩ orig args fs =
      runCapture ⟨dir, pfx, some "capture"⟩ orig args fs := rfl
  rw [hrw]
  simp only [runCapture, hret]
  rcases (if lastIsFn args then orig.cbArgs else none) with _ | ⟨t, cargs⟩ <;>
    [skip; cases t] <;>
    simp only [captureCbDuring_none, captureCbDuring_some_during, captureCbDuring_some_after,
      captureCbAfter_none, captureCbAfter_some_during, captureCbAfter_some_after] <;>
    exact ⟨by simp,
      ⟨_, fsWriteF_same _ _ _, by simp [fileGet_returnedPromise, JSVal.isUndef],
        by simp [fileGet_promiseResolutionArgs, JSVal.truthy],
        by simp [fileGet_promiseRejectionArgs]⟩⟩


/-- C1 counterexample: for a call whose outcome shape is a plain synchronous
return (the original returns 5, no callback), capture-then-replay does not
reproduce the return value: capture persists nothing, so the replay run
throws (the missing-fixture error) instead of returning 5. -/
theorem C1_counterexample :
    (runWrapped ⟨"test/data", "m", some "replay"⟩ ⟨none, OrigRet.retVal (JSVal.num 5)⟩
        [JSVal.num 1]
        (runWrapped ⟨"test/data", "m", some "capture"⟩ ⟨none, OrigRet.retVal (JSVal.num 5)⟩
          [JSVal.num 1] (fun _ => FSEntry.absent)).fsAfter).ret.isThrown = true ∧
    (runWrapped ⟨"test/data", "m", some "replay"⟩ ⟨none, OrigRet.retVal (JSVal.num 5)⟩
        [JSVal.num 1]
        (runWrapped ⟨"test/data", "m", some "capture"⟩ ⟨none, OrigRet.retVal (JSVal.num 5)⟩
          [JSVal.num 1] (fun _ => FSEntry.absent)).fsAfter).ret ≠
      CallRet.val (JSVal.num 5) :=
  ⟨rfl, fun h => nomatch h⟩

/-- C1 (amended): capture-then-replay with the same configuration reproduces
the callback and future outcome shapes, for payloads that survive the JSON
round trip: a callback fired with `cargs` during capture is re-delivered to
the original callback with `cargs` on a later turn of the replay run, and a
future that resolved (rejected) with `v` during capture — which the capture
caller observed unchanged — resolves (rejects) with `v` again in replay.
The synchronous-return shape does not round-trip (see the counterexample):
capture persists nothing for it, so replay raises the missing-fixture
error. -/
theorem C1_roundtrip (dir pfx : String) (orig : OrigBehavior)
    (args : List JSVal) (fs : FS) :
    (∀ t cargs, lastIsFn args = true → orig.cbArgs = some (t, cargs) →
      jparse (stringifyJsArr cargs) = Except.ok (JSVal.arr cargs) →
      Ev.cbCall cargs ∈
        (runWrapped ⟨dir, pfx, some "replay"⟩ orig args
          (runWrapped ⟨dir, pfx, some "capture"⟩ orig args fs).fsAfter).deferredEvents) ∧
    (∀ v, orig.ret = OrigRet.retPromise (PromSettle.resolvesWith v) →
      jparse (stringifyJsArr [v]) = Except.ok (JSVal.arr [v]) →
      Ev.promResolve v ∈
        (runWrapped ⟨dir, pfx, some "capture"⟩ orig args fs).deferredEvents ∧
      Ev.promResolve v ∈
        (runWrapped ⟨dir, pfx, some "replay"⟩ orig args
          (runWrapped ⟨dir, pfx, some "capture"⟩ orig args fs).fsAfter).deferredEvents) ∧
    (∀ v, orig.ret = OrigRet.retPromise (PromSettle.rejectsWith v) →
      jparse (stringifyJsArr [v]) = Except.ok (JSVal.arr [v]) →
      Ev.promReject v ∈
        (runWrapped ⟨dir, pfx, some "capture"⟩ orig args fs).deferredEvents ∧
      Ev.promReject v ∈
        (runWrapped ⟨dir, pfx, some "replay"⟩ orig args
          (runWrapped ⟨dir, pfx, some "capture"⟩ orig args fs).fsAfter).deferredEvents) := by
  refine ⟨?_, ?_, ?_⟩
  · intro t cargs hl hcb hjp
    obtain ⟨f, hread, hcbf⟩ := capture_cb_record dir pfx orig args t cargs fs hl hcb
    exact replay_cb_delivery dir pfx orig args cargs _ f hread hl hcbf hjp
  · intro v hret hjp
    obtain ⟨hev, f, hread, hrp, hres⟩ :=
      capture_promise_res_record dir pfx orig args v fs hret
    exact ⟨hev, replay_promise_resolution dir pfx orig args v _ f hread hrp hres hjp⟩
  · intro v hret hjp
    obtain ⟨hev, f, hread, hrp, hres, hrej⟩ :=
      capture_promise_rej_record dir pfx orig args v fs hret
    exact ⟨hev, replay_promise_rejection dir pfx orig args v _ f hread hrp hres hrej hjp⟩

theorem C1_roundtrip_witness :
    (Ev.cbCall [JSVal.jsNull, JSVal.str "ok"] ∈
      (runWrapped ⟨"test/data", "fetch", some "replay"⟩
        ⟨some (CbTiming.afterReturn, [JSVal.jsNull, JSVal.str "ok"]), OrigRet.retVal JSVal.undef⟩
        [JSVal.num 42, JSVal.fn]
        (runWrapped ⟨"test/data", "fetch", some "capture"⟩
          ⟨some (CbTiming.afterReturn, [JSVal.jsNull, JSVal.str "ok"]),
           OrigRet.retVal JSVal.undef⟩
          [JSVal.num 42, JSVal.fn] (fun _ => FSEntry.absent)).fsAfter).deferredEvents) ∧
    (Ev.promResolve (JSVal.str "v") ∈
      (runWrapped ⟨"test/data", "p", some "capture"⟩
        ⟨none, OrigRet.retPromise (PromSettle.resolvesWith (JSVal.str "v"))⟩
        [JSVal.num 3] (fun _ => FSEntry.absent)).deferredEvents ∧
      Ev.promResolve (JSVal.str "v") ∈
      (runWrapped ⟨"test/data", "p", some "replay"⟩
        ⟨none, OrigRet.retPromise (PromSettle.resolvesWith (JSVal.str "v"))⟩
        [JSVal.num 3]
        (runWrapped ⟨"test/data", "p", some "capture"⟩
          ⟨none, OrigRet.retPromise (PromSettle.resolvesWith (JSVal.str "v"))⟩
          [JSVal.num 3] (fun _ => FSEntry.absent)).fsAfter).deferredEvents) :=
  ⟨(C1_roundtrip "test/data" "fetch"
      ⟨some (CbTiming.afterReturn, [JSVal.jsNull, JSVal.str "ok"]), OrigRet.retVal JSVal.undef⟩
      [JSVal.num 42, JSVal.fn] (fun _ => FSEntry.absent)).1
      CbTiming.afterReturn [JSVal.jsNull, JSVal.str "ok"] (by decide) rfl (by rfl),
   (C1_roundtrip "test/data" "p"
      ⟨none, OrigRet.retPromise (PromSettle.resolvesWith (JSVal.str "v"))⟩
      [JSVal.num 3] (fun _ => FSEntry.absent)).2.1 (JSVal.str "v") rfl (by rfl)⟩

theorem nodup_bounded_length {l : List Nat} {n : Nat} (hnd : l.Nodup)
    (hb : ∀ a ∈ l, a < n) : l.length ≤ n := by
  classical
  have h1 : l.toFinset.card = l.length := List.toFinset_card_of_nodup hnd
  have h2 : l.toFinset ⊆ Finset.range n := by
    intro a ha
    simp only [List.mem_toFinset] at ha
    exact Finset.mem_range.mpr (hb a ha)
  calc l.length = l.toFinset.card := h1.symm
    _ ≤ (Finset.range n).card := Finset.card_le_card h2
    _ = n := Finset.card_range n

theorem idxOf?_eq_none {r : Nat} {l : List Nat} (h : idxOf? r l = none) : r ∉ l := by
  induction l with
  | nil => simp
  | cons a rest ih =>
    simp only [idxOf?] at h
    by_cases ha : a = r
    · simp [ha] at h
    · simp only [ha, if_false, Option.map_eq_none'] at h
      intro hm
      rcases List.mem_cons.mp hm with h1 | h1
      · exact ha h1.symm
      · exact ih h h1

theorem allSome_isSome (l : List (Option String)) (h : ∀ o ∈ l, o.isSome = true) :
    (allSome l).isSome = true := by
  induction l with
  | nil => rfl
  | cons o rest ih =>
    rcases o with _ | s
    · exact absurd (h none (by simp)) (by simp)
    · have h2 := ih (fun o ho => h o (by simp [ho]))
      obtain ⟨parts, hp⟩ := Option.isSome_iff_exists.mp h2
      simp only [allSome, hp]
      rfl

theorem mem_enumIdx {xs : List GVal} {p : String × GVal} (h : p ∈ enumIdx xs) :
    p.2 ∈ xs := by
  unfold enumIdx at h
  obtain ⟨⟨i, g⟩, hq, hfq⟩ := List.mem_map.mp h
  have := (List.of_mem_zip hq).2
  rw [← hfq]
  exact this

/-- Totality of the safe serializer: on a closed heap, with enough fuel left
for the remaining ancestor-stack growth, serialization always produces a
string. -/
theorem serGVal_total (heap : Heap) (hheap : heapClosed heap = true) :
    ∀ (fuel : Nat) (anc : List Nat) (pathKeys : List String) (v : GVal),
      gvalClosed heap.length v = true →
      anc.Nodup → (∀ a ∈ anc, a < heap.length) →
      heap.length + 1 - anc.length ≤ fuel →
      (serGVal fuel heap anc pathKeys v).isSome = true := by
  intro fuel
  induction fuel with
  | zero =>
    intro anc pathKeys v hv hnd hb hf
    exfalso
    have := nodup_bounded_length hnd hb
    omega
  | succ f ih =>
    intro anc pathKeys v hv hnd hb hf
    cases v with
    | prim p => cases p <;> rfl
    | ref r =>
      simp only [serGVal]
      rcases hidx : idxOf? r anc with _ | j <;> (try simp only [hidx])
      · have hrnot : r ∉ anc := idxOf?_eq_none hidx
        have hrlt : r < heap.length := by simpa [gvalClosed] using hv
        rcases hnode : heap.get? r with _ | node <;> (try simp only [hnode])
        · have := List.get?_eq_none.mp hnode
          omega
        · have hmem : node ∈ heap := List.get?_mem hnode
          have hclosed : hnodeClosed heap.length node = true :=
            List.all_eq_true.mp hheap node hmem
          have hnd2 : (anc ++ [r]).Nodup := by
            simp [List.nodup_append, hnd, hrnot]
          have hb2 : ∀ a ∈ anc ++ [r], a < heap.length := by
            intro a ha
            rcases List.mem_append.mp ha with h1 | h1
            · exact hb a h1
            · simp only [List.mem_singleton] at h1
              omega
          have hf2 : heap.length + 1 - (anc ++ [r]).length ≤ f := by
            simp only [List.length_append, List.length_singleton]
            have hlen := nodup_bounded_length hnd hb
            omega
          cases node with
          | harr xs =>
            have hall : ∀ o ∈ (enumIdx xs).map
                (fun p => serGVal f heap (anc ++ [r]) (pathKeys ++ [p.1]) p.2),
                o.isSome = true := by
              intro o ho
              obtain ⟨p, hp, rfl⟩ := List.mem_map.mp ho
              apply ih (anc ++ [r]) (pathKeys ++ [p.1]) p.2 ?_ hnd2 hb2 hf2
              exact List.all_eq_true.mp hclosed p.2 (mem_enumIdx hp)
            obtain ⟨parts, hp⟩ := Option.isSome_iff_exists.mp (allSome_isSome _ hall)
            simp only [hp]
            rfl
          | hobj fields =>
            have hall : ∀ o ∈ fields.map
                (fun p => serGVal f heap (anc ++ [r]) (pathKeys ++ [p.1]) p.2),
                o.isSome = true := by
              intro o ho
              obtain ⟨p, hp, rfl⟩ := List.mem_map.mp ho
              apply ih (anc ++ [r]) (pathKeys ++ [p.1]) p.2 ?_ hnd2 hb2 hf2
              exact List.all_eq_true.mp hclosed p hp
            obtain ⟨parts, hp⟩ := Option.isSome_iff_exists.mp (allSome_isSome _ hall)
            simp only [hp]
            rfl
      · split <;> rfl

/-- C9: the Safe Serializer terminates and never fails on any value over a
closed heap, cyclic references included; a reference back to the root
renders as the bare `[Circular ~]` marker, and a reference back to a deeper
ancestor renders as a marker carrying the dotted key path from the root to
that ancestor (here `~.a`). -/
theorem C9_serializer_safe :
    (∀ (heap : Heap) (v : GVal), heapClosed heap = true →
      gvalClosed heap.length v = true →
      (stringifySafe heap v).isSome = true) ∧
    stringifySafe [HNode.hobj [("a", GVal.ref 0)]] (GVal.ref 0) =
      some "\x7b\"a\":\"[Circular ~]\"\x7d" ∧
    stringifySafe [HNode.hobj [("a", GVal.ref 1)], HNode.hobj [("b", GVal.ref 1)]]
      (GVal.ref 0) = some "\x7b\"a\":\x7b\"b\":\"[Circular ~.a]\"\x7d\x7d" := by
  refine ⟨?_, rfl, rfl⟩
  intro heap v hheap hv
  exact serGVal_total heap hheap (heap.length + 1) [] [] v hv List.nodup_nil
    (by intro a ha; cases ha) (by simp)

theorem C9_serializer_safe_witness :
    (stringifySafe [HNode.harr [GVal.ref 0, GVal.prim (GPrim.gint 3)]]
      (GVal.ref 0)).isSome = true :=
  C9_serializer_safe.1 [HNode.harr [GVal.ref 0, GVal.prim (GPrim.gint 3)]]
    (GVal.ref 0) (by decide) (by decide)

end EasyFix
